import Mathlib

set_option maxRecDepth 8000

/-!
Shallow embedding of the Qwen3-nothink API gateway service layer
(`app/services/vllm_service.py`, with the request schema from
`app/models/openai_schemas.py` and the settings from `app/core/config.py`).

Modelling conventions:
* Byte strings (Python `bytes`) and text are modelled as `List Char`
  (the gateway only rewrites ASCII framing; multi-byte UTF-8 sequences are
  treated as single characters).
* A decoded JSON document (the result of `json.loads`) is the inductive
  type `Json` below.  Python dicts are association lists in insertion
  order; `d[k] = v` updates in place (`dset`), `del d[k]` removes the key
  (`ddel`), `d.setdefault(k, v)` appends at the end when missing.
* JSON numbers are kept as their surface numeric token (a `String`);
  `json.dumps` prints the token back and none of the gateway's code
  inspects numeric values.
* Fallible Python code (exceptions) is modelled with `Option`/`Except`.
-/

inductive Json where
  | null : Json
  | bool : Bool → Json
  | num : String → Json
  | str : String → Json
  | arr : List Json → Json
  | obj : List (String × Json) → Json

/-- Python dict lookup on an insertion-ordered association list. -/
def dlookup : List (String × Json) → String → Option Json
  | [], _ => none
  | (k', v) :: rest, k => if k' = k then some v else dlookup rest k

/-- `k in d` for a Python dict. -/
def hasKey (m : List (String × Json)) (k : String) : Bool :=
  (dlookup m k).isSome

/-- `d[k] = v`: replace the value in place if the key exists (keeping its
position), otherwise append the new binding at the end — Python dict
insertion-order semantics. -/
def dset : List (String × Json) → String → Json → List (String × Json)
  | [], k, v => [(k, v)]
  | (k', v') :: rest, k, v =>
    if k' = k then (k, v) :: rest else (k', v') :: dset rest k v

/-- `del d[k]` / `d.pop(k, None)`: remove the binding of `k`. -/
def ddel : List (String × Json) → String → List (String × Json)
  | [], _ => []
  | (k', v) :: rest, k =>
    if k' = k then ddel rest k else (k', v) :: ddel rest k

/-- `d.setdefault(k, v)`: insert `v` at the end when `k` is missing. -/
def dsetdefault (m : List (String × Json)) (k : String) (v : Json) :
    List (String × Json) :=
  if hasKey m k then m else m ++ [(k, v)]

/-- `d.get(k)` with default `None`: JSON `null` both for an absent key and
for a key bound to `null` (exactly how `msg.get("reasoning_content") is
None` behaves after `json.loads`). -/
def pyGet (m : List (String × Json)) (k : String) : Json :=
  (dlookup m k).getD Json.null

def jsonIsNull : Json → Bool
  | Json.null => true
  | _ => false

/-- The Python test `x in (None, "")`. -/
def isNoneOrEmpty : Json → Bool
  | Json.null => true
  | Json.str "" => true
  | _ => false

/-- `_patch_reasoning_in_message` (vllm_service.py lines 58–63; the
behaviourally identical earlier definition at lines 41–55 is shadowed by
this one):

    if msg.get("reasoning_content") is None: return
    if msg.get("content") in (None, ""): msg["content"] = msg["reasoning_content"]
    del msg["reasoning_content"]
-/
def patch_reasoning_in_message (msg : List (String × Json)) :
    List (String × Json) :=
  if jsonIsNull (pyGet msg "reasoning_content") then
    msg
  else
    let msg1 :=
      if isNoneOrEmpty (pyGet msg "content") then
        dset msg "content" (pyGet msg "reasoning_content")
      else msg
    ddel msg1 "reasoning_content"

-- JSON text: parsing (json.loads) and serialization (json.dumps) ------------

/-- JSON whitespace (the only characters `json.loads` skips). -/
def isJsonWs : Char → Bool
  | ' ' => true
  | '\t' => true
  | '\n' => true
  | '\r' => true
  | _ => false

/-- Whitespace stripped by Python `bytes.strip()`. -/
def isPyWs : Char → Bool
  | ' ' => true
  | '\t' => true
  | '\n' => true
  | '\r' => true
  | '\x0b' => true
  | '\x0c' => true
  | _ => false

/-- Python `bytes.strip()`. -/
def pyStrip (s : List Char) : List Char :=
  ((s.dropWhile isPyWs).reverse.dropWhile isPyWs).reverse

def hexDigitVal (c : Char) : Option Nat :=
  if '0' ≤ c ∧ c ≤ '9' then some (c.toNat - 48)
  else if 'a' ≤ c ∧ c ≤ 'f' then some (c.toNat - 87)
  else if 'A' ≤ c ∧ c ≤ 'F' then some (c.toNat - 55)
  else none

def hexChar (n : Nat) : Char :=
  if n < 10 then Char.ofNat (48 + n) else Char.ofNat (97 + n - 10)

def hex4 (n : Nat) : List Char :=
  [hexChar (n / 4096 % 16), hexChar (n / 256 % 16), hexChar (n / 16 % 16),
   hexChar (n % 16)]

/-- Four hex digits, most significant first. -/
def parseHex4 : List Char → Option (Nat × List Char)
  | a :: b :: c :: d :: rest =>
    (match hexDigitVal a, hexDigitVal b, hexDigitVal c, hexDigitVal d with
     | some ha, some hb, some hc, some hd =>
       some (((ha * 16 + hb) * 16 + hc) * 16 + hd, rest)
     | _, _, _, _ => none)
  | _ => none

/-- The remainder of a `\uXXXX` escape (after `\u`), with surrogate-pair
recombination exactly as the CPython decoder performs it. -/
def parseUEscape (rest1 : List Char) : Option (Char × List Char) :=
  match parseHex4 rest1 with
  | none => none
  | some (code, rest2) =>
    if 0xD800 ≤ code ∧ code ≤ 0xDBFF then
      match rest2 with
      | e2 :: u2 :: rest2' =>
        if e2 = '\\' ∧ u2 = 'u' then
          match parseHex4 rest2' with
          | none => none
          | some (lo, rest3) =>
            if 0xDC00 ≤ lo ∧ lo ≤ 0xDFFF then
              some (Char.ofNat (0x10000 + (code - 0xD800) * 0x400 +
                (lo - 0xDC00)), rest3)
            else none
        else none
      | _ => none
    else if 0xDC00 ≤ code ∧ code ≤ 0xDFFF then none
    else some (Char.ofNat code, rest2)

/-- Body of a JSON string literal, after the opening quote (fuelled; one
unit of fuel per decoded character, so `length + 1` always suffices):
decodes every escape accepted by `json.loads`, including `\uXXXX` with
surrogate-pair recombination, and rejects raw control characters (strict
mode).  One deliberate model restriction: a lone surrogate escape (which
CPython would keep as an unpaired surrogate code unit) is rejected, since
`Char` only holds Unicode scalar values. -/
def parseStrBody : Nat → List Char → List Char →
    Option (List Char × List Char)
  | 0, _, _ => none
  | _ + 1, [], _ => none
  | fuel + 1, c :: rest, acc =>
    if c = '"' then some (acc, rest)
    else if c = '\\' then
      match rest with
      | [] => none
      | e :: rest1 =>
        if e = '"' then parseStrBody fuel rest1 (acc ++ ['"'])
        else if e = '\\' then parseStrBody fuel rest1 (acc ++ ['\\'])
        else if e = '/' then parseStrBody fuel rest1 (acc ++ ['/'])
        else if e = 'b' then parseStrBody fuel rest1 (acc ++ ['\x08'])
        else if e = 'f' then parseStrBody fuel rest1 (acc ++ ['\x0c'])
        else if e = 'n' then parseStrBody fuel rest1 (acc ++ ['\n'])
        else if e = 'r' then parseStrBody fuel rest1 (acc ++ ['\r'])
        else if e = 't' then parseStrBody fuel rest1 (acc ++ ['\t'])
        else if e = 'u' then
          match parseUEscape rest1 with
          | none => none
          | some (ch, rest2) => parseStrBody fuel rest2 (acc ++ [ch])
        else none
    else if c.toNat < 0x20 then none
    else parseStrBody fuel rest (acc ++ [c])

/-- Fractional part of Python's JSON number regex, `(\.\d+)?`. -/
def scanFrac : List Char → List Char × List Char
  | [] => ([], [])
  | c :: u =>
    if c = '.' then
      if (u.takeWhile Char.isDigit).isEmpty then ([], c :: u)
      else ('.' :: u.takeWhile Char.isDigit, u.dropWhile Char.isDigit)
    else ([], c :: u)

/-- Exponent part of Python's JSON number regex, `([eE][-+]?\d+)?`. -/
def scanExp : List Char → List Char × List Char
  | [] => ([], [])
  | e :: u =>
    if e = 'e' ∨ e = 'E' then
      match u with
      | [] => ([], [e])
      | sgn :: w =>
        if sgn = '+' ∨ sgn = '-' then
          if (w.takeWhile Char.isDigit).isEmpty then ([], e :: sgn :: w)
          else (e :: sgn :: w.takeWhile Char.isDigit,
            w.dropWhile Char.isDigit)
        else
          if (u.takeWhile Char.isDigit).isEmpty then ([], e :: u)
          else (e :: u.takeWhile Char.isDigit, u.dropWhile Char.isDigit)
    else ([], e :: u)

/-- Integer part of Python's JSON number regex, `(0|[1-9]\d*)`. -/
def scanIntDigits : List Char → Option (List Char × List Char)
  | [] => none
  | c :: t =>
    if c = '0' then some (['0'], t)
    else if c.isDigit then
      some (c :: t.takeWhile Char.isDigit, t.dropWhile Char.isDigit)
    else none

def scanNumAfterSign (s : List Char) : Option (List Char × List Char) :=
  match scanIntDigits s with
  | none => none
  | some (ip, r1) =>
    let fr := scanFrac r1
    let ex := scanExp fr.2
    some (ip ++ fr.1 ++ ex.1, ex.2)

/-- Maximal-munch scan of one JSON number token,
`-?(0|[1-9]\d*)(\.\d+)?([eE][-+]?\d+)?`. -/
def scanNumber : List Char → Option (List Char × List Char)
  | [] => none
  | c :: t =>
    if c = '-' then
      match scanNumAfterSign t with
      | none => none
      | some (tok, r) => some ('-' :: tok, r)
    else scanNumAfterSign (c :: t)

mutual

/-- One JSON value, fuelled recursive-descent exactly following
`json.loads` (strict mode, with the default acceptance of the
`NaN`/`Infinity`/`-Infinity` constants). -/
def parseVal : Nat → List Char → Option (Json × List Char)
  | 0, _ => none
  | fuel + 1, s =>
    match s.dropWhile isJsonWs with
    | [] => none
    | c :: t =>
      if c = '{' then
        match t.dropWhile isJsonWs with
        | [] => parseMembers fuel t []
        | d :: r =>
          if d = '}' then some (Json.obj [], r) else parseMembers fuel t []
      else if c = '[' then
        match t.dropWhile isJsonWs with
        | [] => parseElems fuel t []
        | d :: r =>
          if d = ']' then some (Json.arr [], r) else parseElems fuel t []
      else if c = '"' then
        match parseStrBody (t.length + 1) t [] with
        | none => none
        | some (cs, r) => some (Json.str (String.mk cs), r)
      else if "null".data.isPrefixOf (c :: t) then
        some (Json.null, (c :: t).drop 4)
      else if "true".data.isPrefixOf (c :: t) then
        some (Json.bool true, (c :: t).drop 4)
      else if "false".data.isPrefixOf (c :: t) then
        some (Json.bool false, (c :: t).drop 5)
      else if "NaN".data.isPrefixOf (c :: t) then
        some (Json.num "NaN", (c :: t).drop 3)
      else if "Infinity".data.isPrefixOf (c :: t) then
        some (Json.num "Infinity", (c :: t).drop 8)
      else if "-Infinity".data.isPrefixOf (c :: t) then
        some (Json.num "-Infinity", (c :: t).drop 9)
      else
        match scanNumber (c :: t) with
        | none => none
        | some (tok, r) => some (Json.num (String.mk tok), r)

/-- Object members after `{` (at least one member; the empty object is
handled by `parseVal`).  Duplicate keys follow Python semantics: the later
value wins, at the first occurrence's position (`d[k] = v`). -/
def parseMembers : Nat → List Char → List (String × Json) →
    Option (Json × List Char)
  | 0, _, _ => none
  | fuel + 1, s, acc =>
    match s.dropWhile isJsonWs with
    | [] => none
    | c :: t =>
      if c = '"' then
        match parseStrBody (t.length + 1) t [] with
        | none => none
        | some (k, r1) =>
          match r1.dropWhile isJsonWs with
          | [] => none
          | d :: r2 =>
            if d = ':' then
              match parseVal fuel r2 with
              | none => none
              | some (v, r3) =>
                match r3.dropWhile isJsonWs with
                | [] => none
                | d2 :: r4 =>
                  if d2 = ',' then
                    parseMembers fuel r4 (dset acc (String.mk k) v)
                  else if d2 = '}' then
                    some (Json.obj (dset acc (String.mk k) v), r4)
                  else none
            else none
      else none

/-- Array elements after `[` (at least one element). -/
def parseElems : Nat → List Char → List Json → Option (Json × List Char)
  | 0, _, _ => none
  | fuel + 1, s, acc =>
    match parseVal fuel s with
    | none => none
    | some (v, r) =>
      match r.dropWhile isJsonWs with
      | [] => none
      | d :: r2 =>
        if d = ',' then parseElems fuel r2 (acc ++ [v])
        else if d = ']' then some (Json.arr (acc ++ [v]), r2)
        else none

end

/-- `json.loads` on a whole byte string: one value, optionally surrounded
by whitespace, nothing after it.  The fuel `s.length + 1` is sufficient:
every recursive descent consumes at least one character per two fuel
units and nesting depth is bounded by half the input length. -/
def jsonParse (s : List Char) : Option Json :=
  match parseVal (s.length + 1) s with
  | none => none
  | some (v, r) => if r.dropWhile isJsonWs = [] then some v else none

/-- `json.dumps` escaping of one character (`ensure_ascii=True`, the
default: everything outside printable ASCII becomes `\uXXXX`, with
surrogate pairs for astral code points). -/
def escChar (c : Char) : List Char :=
  if c = '"' then ['\\', '"']
  else if c = '\\' then ['\\', '\\']
  else if c = '\n' then ['\\', 'n']
  else if c = '\r' then ['\\', 'r']
  else if c = '\t' then ['\\', 't']
  else if c.toNat = 8 then ['\\', 'b']
  else if c.toNat = 12 then ['\\', 'f']
  else if c.toNat < 0x20 then '\\' :: 'u' :: hex4 c.toNat
  else if c.toNat < 0x7f then [c]
  else if c.toNat < 0x10000 then '\\' :: 'u' :: hex4 c.toNat
  else
    ('\\' :: 'u' :: hex4 (0xD800 + (c.toNat - 0x10000) / 0x400)) ++
      ('\\' :: 'u' :: hex4 (0xDC00 + (c.toNat - 0x10000) % 0x400))

def escStr (cs : List Char) : List Char :=
  (cs.map escChar).flatten

mutual

/-- `json.dumps` with its default separators `", "` and `": "`. -/
def dumpsV : Json → List Char
  | Json.null => ['n', 'u', 'l', 'l']
  | Json.bool true => ['t', 'r', 'u', 'e']
  | Json.bool false => ['f', 'a', 'l', 's', 'e']
  | Json.num s => s.data
  | Json.str s => '"' :: (escStr s.data ++ ['"'])
  | Json.arr js => '[' :: (dumpsElems js ++ [']'])
  | Json.obj kvs => '{' :: (dumpsMembers kvs ++ ['}'])

def dumpsElems : List Json → List Char
  | [] => []
  | j :: rest =>
    dumpsV j ++ (if rest.isEmpty then [] else [',', ' ']) ++ dumpsElems rest

def dumpsMembers : List (String × Json) → List Char
  | [] => []
  | (k, v) :: rest =>
    ('"' :: (escStr k.data ++ ['"'])) ++ ':' :: ' ' :: dumpsV v ++
      (if rest.isEmpty then [] else [',', ' ']) ++ dumpsMembers rest

end

-- SSE stream patching (_stream_patch) ---------------------------------------

/-- The SSE frame delimiter `b"\n\n"`. -/
def nn : List Char := ['\n', '\n']

/-- Left-to-right scan splitting on `\n\n`; `cur` is the reversed current
segment. -/
def splitNNAux : List Char → List Char → List (List Char)
  | [], cur => [cur.reverse]
  | c :: rest, cur =>
    if c = '\n' then
      match rest with
      | c2 :: rest2 =>
        if c2 = '\n' then cur.reverse :: splitNNAux rest2 []
        else splitNNAux (c2 :: rest2) (c :: cur)
      | [] => [(c :: cur).reverse]
    else splitNNAux rest (c :: cur)

/-- Python `chunk.split(b"\n\n")`. -/
def splitNN (s : List Char) : List (List Char) :=
  splitNNAux s []

-- Python-semantics helpers for the per-event patch (lines 93–99) ------------

/-- `x.get(k, d)`: only dicts have `.get`; anything else raises
(`AttributeError`), modelled as `none`. -/
def pyGetAttrD (j : Json) (k : String) (d : Json) : Option Json :=
  match j with
  | Json.obj kvs => some ((dlookup kvs k).getD d)
  | _ => none

/-- `x[0]`: first element of a list; first character (as a 1-character
string) of a string; everything else raises (`IndexError` on an empty
list, `KeyError` on a dict, `TypeError` otherwise). -/
def pyIndex0 : Json → Option Json
  | Json.arr (x :: _) => some x
  | Json.str s =>
    (match s.data with
     | c :: _ => some (Json.str (String.mk [c]))
     | [] => none)
  | _ => none

/-- Python substring test `needle in hay`. -/
def containsSub (needle : List Char) : List Char → Bool
  | [] => needle.isEmpty
  | c :: rest => needle.isPrefixOf (c :: rest) || containsSub needle rest

/-- `k in x` for a decoded JSON value: key test on dicts, element equality
on lists, substring test on strings, `TypeError` otherwise. -/
def pyContainsKey (j : Json) (k : String) : Option Bool :=
  match j with
  | Json.obj kvs => some (hasKey kvs k)
  | Json.arr l =>
    some (l.any fun x => match x with
      | Json.str s => s = k
      | _ => false)
  | Json.str s => some (containsSub k.data s.data)
  | _ => none

/-- Lines 93–99 of `_stream_patch`:

    delta = obj.get("choices", [{}])[0].get("delta", {})
    if "reasoning_content" in delta:
        if "content" not in delta or delta.get("content") in (None, ""):
            delta["content"] = delta.pop("reasoning_content")
        else:
            delta.pop("reasoning_content", None)
    obj["choices"][0]["delta"] = delta

`none` models an exception escaping to the per-chunk fallback handler. -/
def patchStreamObj (obj : Json) : Option Json := do
  let choicesVal ← pyGetAttrD obj "choices" (Json.arr [Json.obj []])
  let c0 ← pyIndex0 choicesVal
  let delta ← pyGetAttrD c0 "delta" (Json.obj [])
  let hasRC ← pyContainsKey delta "reasoning_content"
  let delta' ←
    if hasRC then
      match delta with
      | Json.obj dkvs =>
        if hasKey dkvs "content" = false ∨
            isNoneOrEmpty (pyGet dkvs "content") = true then
          some (Json.obj (dset (ddel dkvs "reasoning_content") "content"
            (pyGet dkvs "reasoning_content")))
        else some (Json.obj (ddel dkvs "reasoning_content"))
      | _ => none
    else some delta
  match obj with
  | Json.obj kvs =>
    (match dlookup kvs "choices" with
     | some (Json.arr (c :: restCs)) =>
       (match c with
        | Json.obj ckvs =>
          some (Json.obj (dset kvs "choices"
            (Json.arr (Json.obj (dset ckvs "delta" delta') :: restCs))))
        | _ => none)
     | _ => none)
  | _ => none

/-- Loop body of `_stream_patch` for one frame (lines 80–100): `some out`
is the byte string yielded for this frame; `none` means an exception
escaped the inner `try` (to be caught by the per-chunk handler). -/
def processEvent (event : List Char) : Option (List Char) :=
  if ("data:".data.isPrefixOf event) = false then some (event ++ nn)
  else
    let payload := pyStrip (event.drop 5)
    if payload = "[DONE]".data then some (event ++ nn)
    else
      match jsonParse payload with
      | none => some (event ++ nn)
      | some obj =>
        match patchStreamObj obj with
        | none => none
        | some obj' => some ("data: ".data ++ dumpsV obj' ++ nn)

/-- The per-chunk loop of `_stream_patch`: concatenation of the per-frame
outputs; if a frame raises, what was already yielded for this chunk stays
and the whole original chunk is yielded once more (the `except` branch,
lines 101–103). -/
def streamPatchChunkGo (chunk : List Char) : List (List Char) → List Char
  | [] => []
  | e :: es =>
    match processEvent e with
    | some out => out ++ streamPatchChunkGo chunk es
    | none => chunk

def streamPatchChunk (chunk : List Char) : List Char :=
  streamPatchChunkGo chunk (splitNN chunk)

/-- `_stream_patch` over the backend stream: per-chunk outputs in order. -/
def stream_patch (chunks : List (List Char)) : List (List Char) :=
  chunks.map streamPatchChunk

-- Non-streaming body patch (_patch_reasoning_in_json_bytes) -----------------

/-- `_patch_reasoning_in_message(choice.get("message", {}))` for one
element of `choices`; `none` models an exception (a non-dict choice or a
non-dict `message` value, whose `.get` raises). -/
def patchOneChoice : Json → Option Json
  | Json.obj ckvs =>
    (match dlookup ckvs "message" with
     | some (Json.obj mkvs) =>
       some (Json.obj (dset ckvs "message"
         (Json.obj (patch_reasoning_in_message mkvs))))
     | some _ => none
     | none => some (Json.obj ckvs))
  | _ => none

def patchAllChoices : List Json → Option (List Json)
  | [] => some []
  | c :: cs => do
    let c' ← patchOneChoice c
    let cs' ← patchAllChoices cs
    pure (c' :: cs')

/-- `_patch_reasoning_in_json_bytes` (lines 66–74): decode, patch every
choice's message, re-encode; on any exception (parse failure included)
forward the original bytes. -/
def patch_reasoning_in_json_bytes (body : List Char) : List Char :=
  match jsonParse body with
  | none => body
  | some data =>
    match data with
    | Json.obj kvs =>
      (match (dlookup kvs "choices").getD (Json.arr []) with
       | Json.arr cs =>
         (match patchAllChoices cs with
          | some cs' =>
            dumpsV (Json.obj (if hasKey kvs "choices" then
              dset kvs "choices" (Json.arr cs') else kvs))
          | none => body)
       | Json.str s =>
         (match s.data with
          | [] => dumpsV data
          | _ => body)
       | Json.obj okvs =>
         (match okvs with
          | [] => dumpsV data
          | _ => body)
       | _ => body)
    | _ => body

-- Response normalizer (_handle_backend_response) ----------------------------

structure BackendResponse where
  status : Nat
  headers : List (String × String)
  chunks : List (List Char)

structure OutResponse where
  status : Nat
  headers : List (String × String)
  mediaType : String
  body : List (List Char)

structure HTTPEx where
  status : Nat
  detail : String

def strLower (s : String) : String :=
  String.mk (s.data.map Char.toLower)

/-- Case-insensitive header lookup (httpx / starlette `headers.get`). -/
def headerGetCI : List (String × String) → String → Option String
  | [], _ => none
  | (k', v) :: rest, k =>
    if strLower k' = strLower k then some v else headerGetCI rest k

/-- `_handle_backend_response` (lines 109–168). -/
def handle_backend_response (resp : BackendResponse)
    (is_streaming_request : Bool) : Except HTTPEx OutResponse :=
  let excluded := ["content-length", "transfer-encoding", "connection",
    "content-encoding"]
  let safeHeaders :=
    resp.headers.filter (fun kv => !(excluded.contains (strLower kv.1)))
  if is_streaming_request then
    if resp.status ≠ 200 then
      Except.error ⟨resp.status, String.mk resp.chunks.flatten⟩
    else
      Except.ok ⟨resp.status, safeHeaders,
        (headerGetCI resp.headers "content-type").getD "text/event-stream",
        stream_patch resp.chunks⟩
  else
    let content := resp.chunks.flatten
    if resp.status ≥ 400 then
      Except.ok ⟨resp.status, safeHeaders,
        (headerGetCI resp.headers "content-type").getD "application/json",
        [content]⟩
    else
      Except.ok ⟨resp.status, safeHeaders,
        (headerGetCI resp.headers "content-type").getD "application/json",
        [patch_reasoning_in_json_bytes content]⟩

-- Settings (app/core/config.py defaults) ------------------------------------

structure GatewaySettings where
  LOG_LEVEL : String := "INFO"
  VLLM_BASE_URL : String := "http://localhost:10001"
  VLLM_CHAT_COMPLETIONS_ENDPOINT : String := "/v1/chat/completions"
  VLLM_REQUEST_TIMEOUT : Nat := 1200
  DEFAULT_TEMPERATURE : Json := Json.num "0.7"
  DEFAULT_TOP_P : Json := Json.num "0.8"
  DEFAULT_TOP_K : Json := Json.num "20"
  DEFAULT_PRESENCE_PENALTY : Json := Json.num "1.5"
  DEFAULT_MIN_P : Json := Json.num "0.0"

def settings : GatewaySettings := {}

-- Chat forwarder (forward_chat_completion_request_to_vllm) ------------------

/-- Is a numeric token's value zero (Python float truthiness)? -/
def numTokenIsZero (s : String) : Bool :=
  if s.data.any (fun c => c = 'N' ∨ c = 'I') then false
  else
    ((s.data.takeWhile (fun c => c ≠ 'e' ∧ c ≠ 'E')).filter
      Char.isDigit).all (fun c => c = '0')

/-- Python truthiness `bool(x)` of a decoded JSON value. -/
def pyTruthy : Json → Bool
  | Json.null => false
  | Json.bool b => b
  | Json.num s => !(numTokenIsZero s)
  | Json.str s => !(s.data.isEmpty)
  | Json.arr l => !l.isEmpty
  | Json.obj l => !l.isEmpty

/-- Lines 180–189: `payload = request.model_dump(exclude_unset=True)` is
modelled by `fields`, the association list of exactly the fields the
caller explicitly set; `modelAttr` is the request's (required, hence
always set) `model` attribute. -/
def chat_payload (st : GatewaySettings) (fields : List (String × Json))
    (modelAttr : String) : List (String × Json) :=
  let p := dset fields "chat_template_kwargs"
    (Json.obj [("enable_thinking", Json.bool false)])
  let p := dsetdefault p "temperature" st.DEFAULT_TEMPERATURE
  let p := dsetdefault p "top_p" st.DEFAULT_TOP_P
  let p := dsetdefault p "top_k" st.DEFAULT_TOP_K
  let p := dsetdefault p "presence_penalty" st.DEFAULT_PRESENCE_PENALTY
  dsetdefault p "model" (Json.str modelAttr)

/-- Outcome of one `client.send` call. `httpx.TimeoutException` is caught
first (504); `httpx.ConnectError` and any other `httpx.RequestError` fall
to the second handler (503). -/
inductive SendOutcome where
  | success : BackendResponse → SendOutcome
  | timeout : SendOutcome
  | connectError : SendOutcome
  | requestError : SendOutcome

/-- `forward_chat_completion_request_to_vllm` (lines 174–200), driven by
an oracle list of backend outcomes for successive send attempts; the
result is paired with the number of attempts consumed.  The function
performs a single `client.send`, so it only ever consumes the head. -/
def forward_chat_completion_request_to_vllm (st : GatewaySettings)
    (fields : List (String × Json)) (modelAttr : String)
    (outcomes : List SendOutcome) :
    Option ((Except HTTPEx OutResponse) × Nat) :=
  let payload := chat_payload st fields modelAttr
  let is_stream := pyTruthy (pyGet payload "stream")
  match outcomes with
  | [] => none
  | o :: _ =>
    some ((match o with
      | SendOutcome.timeout =>
        Except.error ⟨504,
          "Gateway timeout: backend LLM did not respond in time."⟩
      | SendOutcome.connectError =>
        Except.error ⟨503, "Backend LLM service unreachable."⟩
      | SendOutcome.requestError =>
        Except.error ⟨503, "Backend LLM service unreachable."⟩
      | SendOutcome.success resp =>
        handle_backend_response resp is_stream), 1)

-- Generic forwarder (forward_generic_request_to_vllm) -----------------------

structure InboundRequest where
  method : String
  path : String
  query : String
  headers : List (String × String)
  body : List Char

structure OutboundRequest where
  method : String
  url : String
  headers : List (String × String)
  content : Option (List Char)

/-- Lines 209–220: the outbound request built by the generic proxy. -/
def generic_outbound (st : GatewaySettings) (req : InboundRequest) :
    OutboundRequest :=
  let pathAndQuery :=
    req.path ++ (if req.query = "" then "" else "?" ++ req.query)
  let excluded := ["host", "content-length", "transfer-encoding",
    "connection"]
  { method := req.method
    url := st.VLLM_BASE_URL ++ pathAndQuery
    headers :=
      req.headers.filter (fun kv => !(excluded.contains (strLower kv.1)))
    content :=
      match req.body with
      | [] => none
      | b => some b }

/-- Line 217: `"text/event-stream" in request.headers.get("accept", "").lower()`. -/
def expect_stream (req : InboundRequest) : Bool :=
  containsSub "text/event-stream".data
    (strLower ((headerGetCI req.headers "accept").getD "")).data

/-- `forward_generic_request_to_vllm` (lines 206–228), same outcome-oracle
convention as the chat forwarder. -/
def forward_generic_request_to_vllm (st : GatewaySettings)
    (req : InboundRequest) (outcomes : List SendOutcome) :
    Option ((Except HTTPEx OutResponse) × Nat) :=
  let _outbound := generic_outbound st req
  let expect := expect_stream req
  match outcomes with
  | [] => none
  | o :: _ =>
    some ((match o with
      | SendOutcome.timeout =>
        Except.error ⟨504,
          "Gateway timeout: backend LLM did not respond in time."⟩
      | SendOutcome.connectError =>
        Except.error ⟨503, "Backend LLM service unreachable."⟩
      | SendOutcome.requestError =>
        Except.error ⟨503, "Backend LLM service unreachable."⟩
      | SendOutcome.success resp =>
        handle_backend_response resp expect), 1)

-- Supporting notions for the SSE round-trip claim -------------------------

/-- A character that may legitimately follow a JSON number token inside a
document (or end of input): these never extend a maximal-munch number
scan. -/
def numBoundary : List Char → Bool
  | [] => true
  | c :: _ => c = ',' || c = ']' || c = '}'

/-- Does the list start with a decimal digit?  (Negated head test used in
maximal-munch arguments.) -/
def headNotDigit : List Char → Bool
  | [] => true
  | c :: _ => !c.isDigit

/-- Does the list start with the given character? -/
def headIs (c : Char) : List Char → Bool
  | [] => false
  | c0 :: _ => c0 = c

/-- A number token is well formed when the scanner consumes it exactly,
or it is one of the three accepted constants. -/
def numTokenOk (t : List Char) : Bool :=
  decide (scanNumber t = some (t, [])) || decide (t = "NaN".data) ||
    decide (t = "Infinity".data) || decide (t = "-Infinity".data)

mutual

/-- Well-formedness of a decoded JSON value: number tokens are exact
scanner output (or constants) and object keys are duplicate-free — the
invariants enjoyed by everything `jsonParse` produces. -/
def wfV : Json → Bool
  | Json.null => true
  | Json.bool _ => true
  | Json.num s => numTokenOk s.data
  | Json.str _ => true
  | Json.arr js => wfElems js
  | Json.obj kvs => wfMembers kvs

def wfElems : List Json → Bool
  | [] => true
  | j :: rest => wfV j && wfElems rest

def wfMembers : List (String × Json) → Bool
  | [] => true
  | (k, v) :: rest => !(hasKey rest k) && wfV v && wfMembers rest

end

/-- The first choice's delta object of a streaming chunk, when the value
has the shape the stream patcher's happy path handles. -/
def deltaObjOf (j : Json) : Option (List (String × Json)) :=
  match j with
  | Json.obj kvs =>
    (match dlookup kvs "choices" with
     | some (Json.arr (Json.obj ckvs :: _)) =>
       (match dlookup ckvs "delta" with
        | some (Json.obj dkvs) => some dkvs
        | _ => none)
     | _ => none)
  | _ => none

/-- `choices[0].delta.reasoning_content` is present. -/
def hasReasoningDelta (j : Json) : Bool :=
  match deltaObjOf j with
  | some dkvs => hasKey dkvs "reasoning_content"
  | none => false

/-- The (non-empty) SSE frames of a byte stream: what an SSE consumer
dispatches — empty segments between consecutive delimiters carry no
event. -/
def sseFrames (s : List Char) : List (List Char) :=
  (splitNN s).filter (fun f => !f.isEmpty)

-- Association list lemmas ---------------------------------------------------

theorem dlookup_dset_self (m : List (String × Json)) (k : String) (v : Json) :
    dlookup (dset m k v) k = some v := by
  induction m with
  | nil => simp [dset, dlookup]
  | cons kv rest ih =>
    obtain ⟨k', v'⟩ := kv
    by_cases h : k' = k
    · simp [dset, h, dlookup]
    · simp [dset, h, dlookup, ih]

theorem dlookup_dset_ne (m : List (String × Json)) (k k' : String) (v : Json)
    (h : k ≠ k') : dlookup (dset m k v) k' = dlookup m k' := by
  induction m with
  | nil => simp [dset, dlookup, h]
  | cons kv rest ih =>
    obtain ⟨k'', v''⟩ := kv
    by_cases h2 : k'' = k
    · simp [dset, h2, dlookup, h]
    · simp [dset, h2, dlookup, ih]

theorem dlookup_ddel_self (m : List (String × Json)) (k : String) :
    dlookup (ddel m k) k = none := by
  induction m with
  | nil => simp [ddel, dlookup]
  | cons kv rest ih =>
    obtain ⟨k', v'⟩ := kv
    by_cases h : k' = k
    · simp [ddel, h, ih]
    · simp [ddel, h, dlookup, ih]

theorem dlookup_ddel_ne (m : List (String × Json)) (k k' : String)
    (h : k ≠ k') : dlookup (ddel m k) k' = dlookup m k' := by
  induction m with
  | nil => simp [ddel, dlookup]
  | cons kv rest ih =>
    obtain ⟨k'', v''⟩ := kv
    by_cases h2 : k'' = k
    · subst h2
      simp [ddel, dlookup, ih, h]
    · simp only [ddel, if_neg h2, dlookup]
      by_cases h3 : k'' = k'
      · simp [h3]
      · simp [h3, ih]

-- C1 / C2 -------------------------------------------------------------------

/-- C1 — Field Patcher contract: if the reasoning field is present and
non-null then, when `content` is absent or empty, the reasoning value is
assigned into `content`, and in all cases `reasoning_content` is removed
afterwards; if the reasoning field is absent or null the message is left
unchanged. -/
theorem C1_field_patcher_contract (msg : List (String × Json)) :
    (jsonIsNull (pyGet msg "reasoning_content") = true →
      patch_reasoning_in_message msg = msg) ∧
    (jsonIsNull (pyGet msg "reasoning_content") = false →
      dlookup (patch_reasoning_in_message msg) "reasoning_content" = none ∧
      (isNoneOrEmpty (pyGet msg "content") = true →
        dlookup (patch_reasoning_in_message msg) "content" =
          some (pyGet msg "reasoning_content"))) := by
  constructor
  · intro h
    simp [patch_reasoning_in_message, h]
  · intro h
    constructor
    · simp only [patch_reasoning_in_message, h, Bool.false_eq_true, if_false]
      exact dlookup_ddel_self _ _
    · intro hempty
      simp only [patch_reasoning_in_message, h, Bool.false_eq_true, if_false,
        hempty, if_true]
      rw [dlookup_ddel_ne _ _ _ (by decide)]
      exact dlookup_dset_self _ _ _

/-- Closed-form witness for C1 at a concrete message carrying only a
reasoning field. -/
theorem C1_field_patcher_contract_witness :
    (jsonIsNull (pyGet [("role", Json.str "assistant"),
            ("reasoning_content", Json.str "hi")] "reasoning_content") =
        false) ∧
    dlookup (patch_reasoning_in_message
        [("role", Json.str "assistant"),
         ("reasoning_content", Json.str "hi")]) "reasoning_content" = none ∧
    dlookup (patch_reasoning_in_message
        [("role", Json.str "assistant"),
         ("reasoning_content", Json.str "hi")]) "content" =
      some (Json.str "hi") := by
  have h := C1_field_patcher_contract
    [("role", Json.str "assistant"), ("reasoning_content", Json.str "hi")]
  exact ⟨by decide, (h.2 (by decide)).1, (h.2 (by decide)).2 (by decide)⟩

/-- C2 — Field Patcher idempotence: applying the patcher twice produces the
same message as applying it once. -/
theorem C2_field_patcher_idempotent (msg : List (String × Json)) :
    patch_reasoning_in_message (patch_reasoning_in_message msg) =
      patch_reasoning_in_message msg := by
  by_cases h : jsonIsNull (pyGet msg "reasoning_content") = true
  · simp [patch_reasoning_in_message, h]
  · have h' : jsonIsNull (pyGet msg "reasoning_content") = false := by
      simpa using h
    have hgone :
        jsonIsNull (pyGet (patch_reasoning_in_message msg)
          "reasoning_content") = true := by
      simp only [patch_reasoning_in_message, h', Bool.false_eq_true, if_false]
      simp [pyGet, dlookup_ddel_self, jsonIsNull]
    conv_lhs => rw [patch_reasoning_in_message]
    simp [hgone]

-- C10 -----------------------------------------------------------------------

/-- C10 — the per-chunk exception fallback duplicates already-emitted
frames: on a chunk holding a well-formed data frame followed by a frame
whose JSON object has an empty `choices` list (so that
`obj.get("choices", [\x7b\x7d])[0]` raises `IndexError` after the first
frame was already yielded), the output is the patched first frame
followed by the entire original chunk — the first frame's content appears
twice.  The second conjunct isolates the raising step. -/
theorem C10_exception_fallback_duplicates_frames :
    streamPatchChunk
        ("data: \x7b\"choices\": [\x7b\"delta\": \x7b\"content\": \"A\"\x7d\x7d]\x7d\n\n".data ++
         "data: \x7b\"choices\": []\x7d\n\n".data) =
      "data: \x7b\"choices\": [\x7b\"delta\": \x7b\"content\": \"A\"\x7d\x7d]\x7d\n\n".data ++
        ("data: \x7b\"choices\": [\x7b\"delta\": \x7b\"content\": \"A\"\x7d\x7d]\x7d\n\n".data ++
         "data: \x7b\"choices\": []\x7d\n\n".data) ∧
    patchStreamObj (Json.obj [("choices", Json.arr [])]) = none := by
  exact ⟨rfl, rfl⟩

-- C4 ------------------------------------------------------------------------

/-- C4 — the code does *not* buffer partial frames across chunk
boundaries: splitting the very same byte stream into two chunks in the
middle of a data frame changes (corrupts) the output, while the code
patches the unsplit stream correctly.  The first conjunct checks that the
two chunkings carry identical bytes; the second that `_stream_patch`
produces different outputs for them. -/
theorem C4_no_partial_frame_buffering :
    ("data: \x7b\"choices\": [\x7b\"del".data ++
        "ta\": \x7b\"reasoning_content\": \"hi\"\x7d\x7d]\x7d\n\n".data =
      "data: \x7b\"choices\": [\x7b\"delta\": \x7b\"reasoning_content\": \"hi\"\x7d\x7d]\x7d\n\n".data) ∧
    (stream_patch ["data: \x7b\"choices\": [\x7b\"del".data,
        "ta\": \x7b\"reasoning_content\": \"hi\"\x7d\x7d]\x7d\n\n".data]).flatten ≠
      (stream_patch ["data: \x7b\"choices\": [\x7b\"delta\": \x7b\"reasoning_content\": \"hi\"\x7d\x7d]\x7d\n\n".data]).flatten := by
  exact ⟨rfl, by decide⟩

-- C7 ------------------------------------------------------------------------

/-- C7 — backend-error pass-through: for a non-streaming request, a
backend response with status ≥ 400 is returned to the caller with the
original status and the body bytes unchanged (no reasoning patching),
only hop-by-hop/framing headers dropped. -/
theorem C7_backend_error_passthrough (resp : BackendResponse)
    (h : 400 ≤ resp.status) :
    handle_backend_response resp false =
      Except.ok
        { status := resp.status
          headers := resp.headers.filter (fun kv =>
            !((["content-length", "transfer-encoding", "connection",
              "content-encoding"] : List String).contains (strLower kv.1)))
          mediaType := (headerGetCI resp.headers "content-type").getD
            "application/json"
          body := [resp.chunks.flatten] } := by
  simp [handle_backend_response, h]

/-- Witness for C7 at the spec's own example: HTTP 500 with body
`\x7b"error":"oom"\x7d` comes back as status 500 with that exact body. -/
theorem C7_backend_error_passthrough_witness :
    (400 ≤ 500) ∧
    handle_backend_response
        ⟨500, [("content-type", "application/json")],
          ["\x7b\"error\":\"oom\"\x7d".data]⟩ false =
      Except.ok
        { status := 500
          headers := [("content-type", "application/json")]
          mediaType := "application/json"
          body := ["\x7b\"error\":\"oom\"\x7d".data] } := by
  refine ⟨by decide, ?_⟩
  exact C7_backend_error_passthrough
    ⟨500, [("content-type", "application/json")],
      ["\x7b\"error\":\"oom\"\x7d".data]⟩ (by decide)

-- C8 ------------------------------------------------------------------------

/-- C8 — backend failure taxonomy, for both forwarders: a timeout on the
backend call yields a 504 with a user-visible detail; a connection or any
other transport failure yields a 503 with a user-visible detail; in every
case exactly one backend attempt is consumed (the `1`), and the result is
independent of any further oracle outcomes (`rest`) — no retry. -/
theorem C8_backend_failure_taxonomy (st : GatewaySettings)
    (fields : List (String × Json)) (modelAttr : String)
    (req : InboundRequest) (rest : List SendOutcome) :
    (forward_chat_completion_request_to_vllm st fields modelAttr
        (SendOutcome.timeout :: rest) =
      some (Except.error ⟨504,
        "Gateway timeout: backend LLM did not respond in time."⟩, 1)) ∧
    (forward_chat_completion_request_to_vllm st fields modelAttr
        (SendOutcome.connectError :: rest) =
      some (Except.error ⟨503, "Backend LLM service unreachable."⟩, 1)) ∧
    (forward_chat_completion_request_to_vllm st fields modelAttr
        (SendOutcome.requestError :: rest) =
      some (Except.error ⟨503, "Backend LLM service unreachable."⟩, 1)) ∧
    (forward_generic_request_to_vllm st req (SendOutcome.timeout :: rest) =
      some (Except.error ⟨504,
        "Gateway timeout: backend LLM did not respond in time."⟩, 1)) ∧
    (forward_generic_request_to_vllm st req
        (SendOutcome.connectError :: rest) =
      some (Except.error ⟨503, "Backend LLM service unreachable."⟩, 1)) ∧
    (forward_generic_request_to_vllm st req
        (SendOutcome.requestError :: rest) =
      some (Except.error ⟨503, "Backend LLM service unreachable."⟩, 1)) := by
  exact ⟨rfl, rfl, rfl, rfl, rfl, rfl⟩

-- C9 ------------------------------------------------------------------------

/-- C9 — generic forwarder reconstruction: the outbound request keeps the
inbound method; its URL is the configured base plus original path plus
original query string; its headers are exactly the inbound headers minus
\x7bhost, content-length, transfer-encoding, connection\x7d compared
case-insensitively; its body is the inbound body bytes unmodified; and
streaming is expected exactly when the `Accept` header contains the SSE
content type. -/
theorem C9_generic_forwarder_reconstruction (st : GatewaySettings)
    (req : InboundRequest) :
    (generic_outbound st req).method = req.method ∧
    (generic_outbound st req).url =
      st.VLLM_BASE_URL ++
        (req.path ++ (if req.query = "" then "" else "?" ++ req.query)) ∧
    (∀ kv, kv ∈ (generic_outbound st req).headers ↔
      (kv ∈ req.headers ∧
        strLower kv.1 ∉ (["host", "content-length", "transfer-encoding",
          "connection"] : List String))) ∧
    ((generic_outbound st req).content.getD [] = req.body) ∧
    (expect_stream req = true ↔
      containsSub "text/event-stream".data
        (strLower ((headerGetCI req.headers "accept").getD "")).data =
        true) := by
  refine ⟨rfl, rfl, ?_, ?_, Iff.rfl⟩
  · intro kv
    simp [generic_outbound, List.mem_filter]
  · show (match req.body with
      | [] => none
      | b => some b : Option (List Char)).getD [] = req.body
    cases req.body <;> rfl

-- C6 ------------------------------------------------------------------------

theorem dlookup_append (m m2 : List (String × Json)) (k : String) :
    dlookup (m ++ m2) k =
      match dlookup m k with
      | some v => some v
      | none => dlookup m2 k := by
  induction m with
  | nil => simp [dlookup]
  | cons kv rest ih =>
    obtain ⟨k', v'⟩ := kv
    by_cases h : k' = k
    · simp [dlookup, h]
    · simp [dlookup, h, ih]

theorem dlookup_dsetdefault_self (m : List (String × Json)) (k : String)
    (v : Json) :
    dlookup (dsetdefault m k v) k = some ((dlookup m k).getD v) := by
  cases h : dlookup m k with
  | some x => simp [dsetdefault, hasKey, h]
  | none =>
    simp only [dsetdefault, hasKey, h, Option.isSome_none, if_false,
      Bool.false_eq_true]
    rw [dlookup_append, h]
    simp [dlookup]

theorem dlookup_dsetdefault_ne (m : List (String × Json)) (k k' : String)
    (v : Json) (h : k ≠ k') :
    dlookup (dsetdefault m k v) k' = dlookup m k' := by
  by_cases hk : hasKey m k
  · simp [dsetdefault, hk]
  · simp only [dsetdefault, hk, if_false, Bool.false_eq_true]
    rw [dlookup_append]
    cases h2 : dlookup m k' with
    | some x => simp
    | none => simp [dlookup, h]

/-- C6 — chat outbound payload construction: the payload preserves exactly
the caller-set fields at every key the code does not inject (so unset
optional fields stay absent); `chat_template_kwargs` is forced to
`\x7b"enable_thinking": false\x7d`; the requested model id is carried; and
each of temperature/top_p/top_k/presence_penalty is the caller's value
when set and the configured default exactly when omitted. -/
theorem C6_chat_outbound_payload (st : GatewaySettings)
    (fields : List (String × Json)) (modelAttr : String)
    (hmodel : dlookup fields "model" = some (Json.str modelAttr)) :
    (∀ k, k ∉ (["chat_template_kwargs", "temperature", "top_p", "top_k",
        "presence_penalty"] : List String) →
      dlookup (chat_payload st fields modelAttr) k = dlookup fields k) ∧
    dlookup (chat_payload st fields modelAttr) "chat_template_kwargs" =
      some (Json.obj [("enable_thinking", Json.bool false)]) ∧
    dlookup (chat_payload st fields modelAttr) "model" =
      some (Json.str modelAttr) ∧
    dlookup (chat_payload st fields modelAttr) "temperature" =
      some ((dlookup fields "temperature").getD st.DEFAULT_TEMPERATURE) ∧
    dlookup (chat_payload st fields modelAttr) "top_p" =
      some ((dlookup fields "top_p").getD st.DEFAULT_TOP_P) ∧
    dlookup (chat_payload st fields modelAttr) "top_k" =
      some ((dlookup fields "top_k").getD st.DEFAULT_TOP_K) ∧
    dlookup (chat_payload st fields modelAttr) "presence_penalty" =
      some ((dlookup fields "presence_penalty").getD
        st.DEFAULT_PRESENCE_PENALTY) := by
  have hp4model :
      dlookup (dsetdefault (dsetdefault (dsetdefault (dsetdefault
          (dset fields "chat_template_kwargs"
            (Json.obj [("enable_thinking", Json.bool false)]))
          "temperature" st.DEFAULT_TEMPERATURE)
          "top_p" st.DEFAULT_TOP_P)
          "top_k" st.DEFAULT_TOP_K)
          "presence_penalty" st.DEFAULT_PRESENCE_PENALTY) "model" =
        some (Json.str modelAttr) := by
    rw [dlookup_dsetdefault_ne _ _ _ _ (by decide),
      dlookup_dsetdefault_ne _ _ _ _ (by decide),
      dlookup_dsetdefault_ne _ _ _ _ (by decide),
      dlookup_dsetdefault_ne _ _ _ _ (by decide),
      dlookup_dset_ne _ _ _ _ (by decide), hmodel]
  refine ⟨?_, ?_, ?_, ?_, ?_, ?_, ?_⟩
  · intro k hk
    simp only [List.mem_cons, List.not_mem_nil, or_false, not_or] at hk
    obtain ⟨hk1, hk2, hk3, hk4, hk5⟩ := hk
    by_cases hm : k = "model"
    · subst hm
      simp only [chat_payload]
      rw [dlookup_dsetdefault_self, hp4model, hmodel]
      rfl
    · simp only [chat_payload]
      rw [dlookup_dsetdefault_ne _ _ _ _ (fun he => hm he.symm),
        dlookup_dsetdefault_ne _ _ _ _ (fun he => hk5 he.symm),
        dlookup_dsetdefault_ne _ _ _ _ (fun he => hk4 he.symm),
        dlookup_dsetdefault_ne _ _ _ _ (fun he => hk3 he.symm),
        dlookup_dsetdefault_ne _ _ _ _ (fun he => hk2 he.symm),
        dlookup_dset_ne _ _ _ _ (fun he => hk1 he.symm)]
  · simp only [chat_payload]
    rw [dlookup_dsetdefault_ne _ _ _ _ (by decide),
      dlookup_dsetdefault_ne _ _ _ _ (by decide),
      dlookup_dsetdefault_ne _ _ _ _ (by decide),
      dlookup_dsetdefault_ne _ _ _ _ (by decide),
      dlookup_dsetdefault_ne _ _ _ _ (by decide),
      dlookup_dset_self]
  · simp only [chat_payload]
    rw [dlookup_dsetdefault_self, hp4model]
    rfl
  · simp only [chat_payload]
    rw [dlookup_dsetdefault_ne _ _ _ _ (by decide),
      dlookup_dsetdefault_ne _ _ _ _ (by decide),
      dlookup_dsetdefault_ne _ _ _ _ (by decide),
      dlookup_dsetdefault_ne _ _ _ _ (by decide),
      dlookup_dsetdefault_self,
      dlookup_dset_ne _ _ _ _ (by decide)]
  · simp only [chat_payload]
    rw [dlookup_dsetdefault_ne _ _ _ _ (by decide),
      dlookup_dsetdefault_ne _ _ _ _ (by decide),
      dlookup_dsetdefault_ne _ _ _ _ (by decide),
      dlookup_dsetdefault_self,
      dlookup_dsetdefault_ne _ _ _ _ (by decide),
      dlookup_dset_ne _ _ _ _ (by decide)]
  · simp only [chat_payload]
    rw [dlookup_dsetdefault_ne _ _ _ _ (by decide),
      dlookup_dsetdefault_ne _ _ _ _ (by decide),
      dlookup_dsetdefault_self,
      dlookup_dsetdefault_ne _ _ _ _ (by decide),
      dlookup_dsetdefault_ne _ _ _ _ (by decide),
      dlookup_dset_ne _ _ _ _ (by decide)]
  · simp only [chat_payload]
    rw [dlookup_dsetdefault_ne _ _ _ _ (by decide),
      dlookup_dsetdefault_self,
      dlookup_dsetdefault_ne _ _ _ _ (by decide),
      dlookup_dsetdefault_ne _ _ _ _ (by decide),
      dlookup_dsetdefault_ne _ _ _ _ (by decide),
      dlookup_dset_ne _ _ _ _ (by decide)]

/-- Witness for C6: a request with an explicit `temperature: 0.2` keeps it
(the default is not applied), extra fields pass through, `top_p` gets the
configured default, `enable_thinking` is forced off and the model id is
carried. -/
theorem C6_chat_outbound_payload_witness :
    (dlookup [("model", Json.str "qwen3"), ("messages", Json.arr []),
        ("temperature", Json.num "0.2")] "model" =
      some (Json.str "qwen3")) ∧
    dlookup (chat_payload settings
        [("model", Json.str "qwen3"), ("messages", Json.arr []),
         ("temperature", Json.num "0.2")] "qwen3") "temperature" =
      some (Json.num "0.2") ∧
    dlookup (chat_payload settings
        [("model", Json.str "qwen3"), ("messages", Json.arr []),
         ("temperature", Json.num "0.2")] "qwen3") "top_p" =
      some (Json.num "0.8") ∧
    dlookup (chat_payload settings
        [("model", Json.str "qwen3"), ("messages", Json.arr []),
         ("temperature", Json.num "0.2")] "qwen3") "chat_template_kwargs" =
      some (Json.obj [("enable_thinking", Json.bool false)]) ∧
    dlookup (chat_payload settings
        [("model", Json.str "qwen3"), ("messages", Json.arr []),
         ("temperature", Json.num "0.2")] "qwen3") "model" =
      some (Json.str "qwen3") ∧
    dlookup (chat_payload settings
        [("model", Json.str "qwen3"), ("messages", Json.arr []),
         ("temperature", Json.num "0.2")] "qwen3") "messages" =
      some (Json.arr []) := by
  have h := C6_chat_outbound_payload settings
    [("model", Json.str "qwen3"), ("messages", Json.arr []),
     ("temperature", Json.num "0.2")] "qwen3" rfl
  refine ⟨rfl, ?_, ?_, h.2.1, h.2.2.1, ?_⟩
  · rw [h.2.2.2.1]; rfl
  · rw [h.2.2.2.2.1]; rfl
  · rw [h.1 "messages" (by decide)]; rfl

-- C5 ------------------------------------------------------------------------

/-- C5 — malformed-payload recovery.  (i) A non-streaming body that fails
to decode as JSON is returned unchanged by the normalizer; (ii) on the
non-streaming success path the caller still gets a normal response with
the original bytes (no error surfaced); (iii) an SSE data frame whose
payload fails to decode is forwarded byte-identical (delimiter restored);
(iv) frame processing is frame-local: whenever no frame of a chunk raises,
the chunk output is the concatenation of the per-frame outputs, so
adjacent well-formed frames are still patched. -/
theorem C5_malformed_payload_recovery :
    (∀ body : List Char, jsonParse body = none →
      patch_reasoning_in_json_bytes body = body) ∧
    (∀ resp : BackendResponse, resp.status < 400 →
      jsonParse resp.chunks.flatten = none →
      handle_backend_response resp false =
        Except.ok
          { status := resp.status
            headers := resp.headers.filter (fun kv =>
              !((["content-length", "transfer-encoding", "connection",
                "content-encoding"] : List String).contains
                  (strLower kv.1)))
            mediaType := (headerGetCI resp.headers "content-type").getD
              "application/json"
            body := [resp.chunks.flatten] }) ∧
    (∀ event : List Char,
      "data:".data.isPrefixOf event = true →
      pyStrip (event.drop 5) ≠ "[DONE]".data →
      jsonParse (pyStrip (event.drop 5)) = none →
      processEvent event = some (event ++ nn)) ∧
    (∀ (chunk : List Char) (es : List (List Char)),
      splitNN chunk = es →
      (∀ e ∈ es, processEvent e ≠ none) →
      streamPatchChunk chunk =
        (es.map (fun e => (processEvent e).getD [])).flatten) := by
  refine ⟨?_, ?_, ?_, ?_⟩
  · intro body h
    simp [patch_reasoning_in_json_bytes, h]
  · intro resp h hparse
    have hnot : ¬ (resp.status ≥ 400) := Nat.not_le.mpr h
    have hbody : patch_reasoning_in_json_bytes resp.chunks.flatten =
        resp.chunks.flatten := by
      simp [patch_reasoning_in_json_bytes, hparse]
    simp [handle_backend_response, hnot, hbody]
  · intro event hpre hdone hparse
    simp [processEvent, hpre, hdone, hparse]
  · intro chunk es hsplit hall
    rw [streamPatchChunk, hsplit]
    clear hsplit
    induction es with
    | nil => rfl
    | cons e es ih =>
      have he := hall e (by simp)
      obtain ⟨out, hout⟩ := Option.ne_none_iff_exists'.mp he
      simp only [streamPatchChunkGo, hout, List.map_cons, List.flatten_cons,
        Option.getD_some]
      rw [ih (fun e' he' => hall e' (List.mem_cons_of_mem _ he'))]

/-- Witness for C5: a malformed body comes back unchanged; a malformed
frame inside a stream is forwarded verbatim while its well-formed
neighbour is still patched. -/
theorem C5_malformed_payload_recovery_witness :
    (jsonParse "not json".data = none) ∧
    patch_reasoning_in_json_bytes "not json".data = "not json".data ∧
    ("data:".data.isPrefixOf "data: \x7bbad".data = true) ∧
    (pyStrip ("data: \x7bbad".data.drop 5) ≠ "[DONE]".data) ∧
    (jsonParse (pyStrip ("data: \x7bbad".data.drop 5)) = none) ∧
    processEvent "data: \x7bbad".data =
      some ("data: \x7bbad".data ++ nn) ∧
    (splitNN ("data: \x7bbad\n\ndata: \x7b\"choices\": [\x7b\"delta\": \x7b\"reasoning_content\": \"y\"\x7d\x7d]\x7d\n\n".data) =
      ["data: \x7bbad".data,
       "data: \x7b\"choices\": [\x7b\"delta\": \x7b\"reasoning_content\": \"y\"\x7d\x7d]\x7d".data,
       []]) ∧
    streamPatchChunk "data: \x7bbad\n\ndata: \x7b\"choices\": [\x7b\"delta\": \x7b\"reasoning_content\": \"y\"\x7d\x7d]\x7d\n\n".data =
      (( ["data: \x7bbad".data,
          "data: \x7b\"choices\": [\x7b\"delta\": \x7b\"reasoning_content\": \"y\"\x7d\x7d]\x7d".data,
          []].map (fun e => (processEvent e).getD [])).flatten) := by
  have h := C5_malformed_payload_recovery
  refine ⟨rfl, h.1 _ rfl, rfl, by decide, rfl, ?_, rfl, ?_⟩
  · exact h.2.2.1 _ rfl (by decide) rfl
  · exact h.2.2.2 _ _ rfl (by decide)

-- String escape round-trip --------------------------------------------------

theorem hexDigitVal_hexChar :
    ∀ d : Nat, d < 16 → hexDigitVal (hexChar d) = some d := by decide

theorem char_toNat_lt (c : Char) : c.toNat < 0x110000 := by
  rcases c.valid with h | h
  · exact Nat.lt_trans h (by norm_num)
  · exact h.2

theorem char_not_surrogate (c : Char) :
    c.toNat < 0xD800 ∨ 0xDFFF < c.toNat := by
  rcases c.valid with h | h
  · exact Or.inl h
  · exact Or.inr h.1

theorem parseHex4_hex4 (n : Nat) (h : n < 65536) (s : List Char) :
    parseHex4 (hex4 n ++ s) = some (n, s) := by
  have h1 := hexDigitVal_hexChar (n / 4096 % 16) (Nat.mod_lt _ (by norm_num))
  have h2 := hexDigitVal_hexChar (n / 256 % 16) (Nat.mod_lt _ (by norm_num))
  have h3 := hexDigitVal_hexChar (n / 16 % 16) (Nat.mod_lt _ (by norm_num))
  have h4 := hexDigitVal_hexChar (n % 16) (Nat.mod_lt _ (by norm_num))
  simp only [hex4, List.cons_append, List.nil_append, parseHex4, h1, h2, h3,
    h4]
  have heq : ((n / 4096 % 16 * 16 + n / 256 % 16) * 16 + n / 16 % 16) * 16 +
      n % 16 = n := by omega
  rw [heq]

/-- `parseUEscape` after resolving the first `\uXXXX` group. -/
theorem parseUEscape_step (hi : Nat) (hke : hi < 65536) (x : List Char) :
    parseUEscape (hex4 hi ++ x) =
      (if 0xD800 ≤ hi ∧ hi ≤ 0xDBFF then
        match x with
        | e2 :: u2 :: rest2' =>
          if e2 = '\\' ∧ u2 = 'u' then
            match parseHex4 rest2' with
            | none => none
            | some (lo, rest3) =>
              if 0xDC00 ≤ lo ∧ lo ≤ 0xDFFF then
                some (Char.ofNat (0x10000 + (hi - 0xD800) * 0x400 +
                  (lo - 0xDC00)), rest3)
              else none
          else none
        | _ => none
      else if 0xDC00 ≤ hi ∧ hi ≤ 0xDFFF then none
      else some (Char.ofNat hi, x)) := by
  rw [parseUEscape, parseHex4_hex4 _ hke]

theorem parseUEscape_bmp (n : Nat) (h : n < 65536)
    (hno : n < 0xD800 ∨ 0xDFFF < n) (s : List Char) :
    parseUEscape (hex4 n ++ s) = some (Char.ofNat n, s) := by
  rw [parseUEscape_step n h, if_neg (by omega), if_neg (by omega)]

theorem parseUEscape_pair (hi lo : Nat) (hhi : 0xD800 ≤ hi ∧ hi ≤ 0xDBFF)
    (hlo2 : 0xDC00 ≤ lo ∧ lo ≤ 0xDFFF) (s : List Char) :
    parseUEscape (hex4 hi ++ ('\\' :: 'u' :: (hex4 lo ++ s))) =
      some (Char.ofNat (0x10000 + (hi - 0xD800) * 0x400 + (lo - 0xDC00)),
        s) := by
  rw [parseUEscape_step hi (by omega), if_pos hhi]
  simp only [parseHex4_hex4 lo (by omega), eq_self_iff_true, and_self,
    if_true]
  rw [if_pos hlo2]

theorem parseUEscape_astral (n : Nat) (h1 : 0x10000 ≤ n) (h2 : n < 0x110000)
    (s : List Char) :
    parseUEscape (hex4 (0xD800 + (n - 0x10000) / 0x400) ++
      ('\\' :: 'u' :: (hex4 (0xDC00 + (n - 0x10000) % 0x400) ++ s))) =
      some (Char.ofNat n, s) := by
  rw [parseUEscape_pair _ _ (by omega) (by omega) s]
  have heq : 0x10000 + (0xD800 + (n - 0x10000) / 0x400 - 0xD800) * 0x400 +
      (0xDC00 + (n - 0x10000) % 0x400 - 0xDC00) = n := by omega
  rw [heq]

/-- The body of `parseStrBody` on a cons, exposed for rewriting. -/
theorem parseStrBody_cons (fuel : Nat) (c : Char) (rest acc : List Char) :
    parseStrBody (fuel + 1) (c :: rest) acc =
      (if c = '"' then some (acc, rest)
       else if c = '\\' then
         match rest with
         | [] => none
         | e :: rest1 =>
           if e = '"' then parseStrBody fuel rest1 (acc ++ ['"'])
           else if e = '\\' then parseStrBody fuel rest1 (acc ++ ['\\'])
           else if e = '/' then parseStrBody fuel rest1 (acc ++ ['/'])
           else if e = 'b' then parseStrBody fuel rest1 (acc ++ ['\x08'])
           else if e = 'f' then parseStrBody fuel rest1 (acc ++ ['\x0c'])
           else if e = 'n' then parseStrBody fuel rest1 (acc ++ ['\n'])
           else if e = 'r' then parseStrBody fuel rest1 (acc ++ ['\r'])
           else if e = 't' then parseStrBody fuel rest1 (acc ++ ['\t'])
           else if e = 'u' then
             match parseUEscape rest1 with
             | none => none
             | some (ch, rest2) => parseStrBody fuel rest2 (acc ++ [ch])
           else none
       else if c.toNat < 0x20 then none
       else parseStrBody fuel rest (acc ++ [c])) := rfl

/-- One decoded character via a `\uXXXX` escape. -/
theorem parseStrBody_uEscape (fuel : Nat) (x s acc : List Char) (c : Char)
    (h : parseUEscape x = some (c, s)) :
    parseStrBody (fuel + 1) ('\\' :: 'u' :: x) acc =
      parseStrBody fuel s (acc ++ [c]) := by
  show (match parseUEscape x with
    | none => none
    | some (ch, rest2) => parseStrBody fuel rest2 (acc ++ [ch])) =
    parseStrBody fuel s (acc ++ [c])
  rw [h]

/-- One step of the string-body parser over one escaped source character. -/
theorem parseStrBody_escChar (c : Char) (fuel : Nat) (s acc : List Char) :
    parseStrBody (fuel + 1) (escChar c ++ s) acc =
      parseStrBody fuel s (acc ++ [c]) := by
  by_cases h1 : c = '"'
  · subst h1; rfl
  · by_cases h2 : c = '\\'
    · subst h2; rfl
    · by_cases h3 : c = '\n'
      · subst h3; rfl
      · by_cases h4 : c = '\r'
        · subst h4; rfl
        · by_cases h5 : c = '\t'
          · subst h5; rfl
          · by_cases h6 : c.toNat = 8
            · have hc : c = '\x08' := by
                have := Char.ofNat_toNat c
                rw [h6] at this
                exact this.symm
              subst hc; rfl
            · by_cases h7 : c.toNat = 12
              · have hc : c = '\x0c' := by
                  have := Char.ofNat_toNat c
                  rw [h7] at this
                  exact this.symm
                subst hc; rfl
              · rw [escChar, if_neg h1, if_neg h2, if_neg h3, if_neg h4,
                  if_neg h5, if_neg h6, if_neg h7]
                by_cases h8 : c.toNat < 0x20
                · rw [if_pos h8]
                  simp only [List.cons_append]
                  rw [parseStrBody_uEscape fuel _ s acc c
                    (by rw [parseUEscape_bmp c.toNat (by omega) (by omega) s,
                      Char.ofNat_toNat])]
                · rw [if_neg h8]
                  by_cases h9 : c.toNat < 0x7f
                  · rw [if_pos h9]
                    show parseStrBody (fuel + 1) (c :: s) acc =
                      parseStrBody fuel s (acc ++ [c])
                    rw [parseStrBody_cons]
                    rw [if_neg h1, if_neg h2, if_neg h8]
                  · rw [if_neg h9]
                    by_cases h10 : c.toNat < 0x10000
                    · rw [if_pos h10]
                      simp only [List.cons_append]
                      rw [parseStrBody_uEscape fuel _ s acc c
                        (by rw [parseUEscape_bmp c.toNat h10
                            (char_not_surrogate c) s, Char.ofNat_toNat])]
                    · rw [if_neg h10]
                      simp only [List.cons_append, List.append_assoc]
                      rw [parseStrBody_uEscape fuel _ s acc c
                        (by rw [parseUEscape_astral c.toNat (by omega)
                            (char_toNat_lt c) s, Char.ofNat_toNat])]

/-- The string-body parser consumes a whole escaped string and the closing
quote, appending the decoded characters to the accumulator. -/
theorem parseStrBody_escStr (cs : List Char) :
    ∀ (fuel : Nat) (s acc : List Char), cs.length ≤ fuel →
      parseStrBody (fuel + 1) (escStr cs ++ ('"' :: s)) acc =
        some (acc ++ cs, s) := by
  induction cs with
  | nil =>
    intro fuel s acc _
    simp [escStr, parseStrBody]
  | cons c cs ih =>
    intro fuel s acc hlen
    cases fuel with
    | zero => simp at hlen
    | succ fuel' =>
      have hesc : escStr (c :: cs) = escChar c ++ escStr cs := by
        simp [escStr]
      rw [hesc, List.append_assoc]
      rw [parseStrBody_escChar c (fuel' + 1) (escStr cs ++ ('"' :: s)) acc]
      rw [ih fuel' s (acc ++ [c]) (by simp at hlen; omega)]
      simp

-- Number token scanning lemmas ----------------------------------------------

theorem headNotDigit_dropWhile (l : List Char) :
    headNotDigit (l.dropWhile Char.isDigit) = true := by
  induction l with
  | nil => rfl
  | cons c t ih =>
    rw [List.dropWhile_cons]
    by_cases h : c.isDigit = true
    · simpa [h] using ih
    · simp only [h, if_false, Bool.false_eq_true]
      simp [headNotDigit, Bool.eq_false_iff.mpr h]

theorem takeWhile_digits_append (ds r : List Char)
    (hds : ∀ c ∈ ds, c.isDigit = true) (hr : headNotDigit r = true) :
    (ds ++ r).takeWhile Char.isDigit = ds ∧
      (ds ++ r).dropWhile Char.isDigit = r := by
  induction ds with
  | nil =>
    simp only [List.nil_append]
    cases r with
    | nil => simp
    | cons c t =>
      have hc : c.isDigit = false := by
        simpa [headNotDigit] using hr
      simp [List.takeWhile_cons, List.dropWhile_cons, hc]
  | cons d ds ih =>
    have hd : d.isDigit = true := hds d (by simp)
    have ih' := ih (fun c hc => hds c (by simp [hc]))
    simp [List.takeWhile_cons, List.dropWhile_cons, hd, ih'.1, ih'.2]

theorem numBoundary_facts (x : List Char) (h : numBoundary x = true) :
    headNotDigit x = true ∧ headIs '.' x = false ∧ headIs 'e' x = false ∧
      headIs 'E' x = false := by
  cases x with
  | nil => exact ⟨rfl, rfl, rfl, rfl⟩
  | cons c t =>
    have hc : (c = ',' ∨ c = ']') ∨ c = '}' := by
      simpa [numBoundary, decide_eq_true_eq] using h
    rcases hc with (hc | hc) | hc <;> subst hc <;>
      exact ⟨rfl, rfl, rfl, rfl⟩

theorem scanIntDigits_split (s ip r : List Char)
    (h : scanIntDigits s = some (ip, r)) :
    s = ip ++ r ∧ (∀ c ∈ ip, c.isDigit = true) ∧
      (ip = ['0'] ∨
        (∃ c ds, ip = c :: ds ∧ c.isDigit = true ∧ ¬ c = '0' ∧
          headNotDigit r = true)) := by
  cases s with
  | nil => simp [scanIntDigits] at h
  | cons c t =>
    rw [scanIntDigits] at h
    by_cases h0 : c = '0'
    · rw [if_pos h0] at h
      injection h with h'
      injection h' with hip hr
      subst hip; subst hr; subst h0
      exact ⟨rfl, by simp, Or.inl rfl⟩
    · rw [if_neg h0] at h
      by_cases hd : c.isDigit = true
      · rw [if_pos hd] at h
        injection h with h'
        injection h' with hip hr
        subst hip; subst hr
        refine ⟨by simp [List.takeWhile_append_dropWhile], ?_, ?_⟩
        · intro x hx
          rcases List.mem_cons.mp hx with hx | hx
          · subst hx; exact hd
          · exact List.mem_takeWhile_imp hx
        · exact Or.inr ⟨c, _, rfl, hd, h0, headNotDigit_dropWhile t⟩
      · rw [if_neg hd] at h
        exact absurd h (by simp)

theorem scanIntDigits_rescan (ip x : List Char)
    (hds : ∀ c ∈ ip, c.isDigit = true)
    (hshape : ip = ['0'] ∨
      (∃ c ds, ip = c :: ds ∧ c.isDigit = true ∧ ¬ c = '0' ∧
        headNotDigit x = true)) :
    scanIntDigits (ip ++ x) = some (ip, x) := by
  rcases hshape with h0 | ⟨c, ds, hip, hcd, hc0, hx⟩
  · subst h0
    simp [scanIntDigits]
  · subst hip
    rw [List.cons_append, scanIntDigits, if_neg hc0, if_pos hcd]
    have := takeWhile_digits_append ds x
      (fun d hd => hds d (by simp [hd])) hx
    rw [this.1, this.2]

theorem scanFrac_split (s : List Char) :
    ((scanFrac s).1 = [] ∧ (scanFrac s).2 = s) ∨
      (∃ ds, ds ≠ [] ∧ (∀ c ∈ ds, c.isDigit = true) ∧
        (scanFrac s).1 = '.' :: ds ∧ s = (scanFrac s).1 ++ (scanFrac s).2 ∧
        headNotDigit (scanFrac s).2 = true) := by
  cases s with
  | nil => exact Or.inl ⟨rfl, rfl⟩
  | cons c u =>
    rw [scanFrac]
    by_cases hdot : c = '.'
    · rw [if_pos hdot]
      by_cases hemp : (u.takeWhile Char.isDigit).isEmpty = true
      · rw [if_pos hemp]
        exact Or.inl ⟨rfl, rfl⟩
      · rw [if_neg hemp]
        refine Or.inr ⟨u.takeWhile Char.isDigit,
          by simpa [List.isEmpty_iff] using hemp,
          fun d hd => List.mem_takeWhile_imp hd, rfl, ?_, ?_⟩
        · simp [hdot, List.takeWhile_append_dropWhile]
        · exact headNotDigit_dropWhile u
    · rw [if_neg hdot]
      exact Or.inl ⟨rfl, rfl⟩

theorem scanFrac_skip (x : List Char) (h : headIs '.' x = false) :
    scanFrac x = ([], x) := by
  cases x with
  | nil => rfl
  | cons c t =>
    have hc : ¬ c = '.' := by simpa [headIs] using h
    rw [scanFrac, if_neg hc]

theorem scanFrac_take (ds x : List Char) (hne : ds ≠ [])
    (hds : ∀ c ∈ ds, c.isDigit = true) (hx : headNotDigit x = true) :
    scanFrac ('.' :: (ds ++ x)) = ('.' :: ds, x) := by
  rw [scanFrac, if_pos rfl]
  have htw := takeWhile_digits_append ds x hds hx
  rw [htw.1, htw.2]
  rw [if_neg (by simpa [List.isEmpty_iff] using hne)]

theorem scanExp_single (e : Char) : scanExp [e] = ([], [e]) := by
  show (if e = 'e' ∨ e = 'E' then (([], [e]) : List Char × List Char)
    else ([], [e])) = ([], [e])
  rw [ite_self]

theorem scanExp_cons2 (e sgn : Char) (w : List Char) :
    scanExp (e :: sgn :: w) =
      (if e = 'e' ∨ e = 'E' then
        if sgn = '+' ∨ sgn = '-' then
          if (w.takeWhile Char.isDigit).isEmpty then ([], e :: sgn :: w)
          else (e :: sgn :: w.takeWhile Char.isDigit,
            w.dropWhile Char.isDigit)
        else
          if ((sgn :: w).takeWhile Char.isDigit).isEmpty then
            ([], e :: sgn :: w)
          else (e :: (sgn :: w).takeWhile Char.isDigit,
            (sgn :: w).dropWhile Char.isDigit)
      else ([], e :: sgn :: w)) := rfl

theorem scanExp_notE (x : List Char) (h1 : headIs 'e' x = false)
    (h2 : headIs 'E' x = false) : scanExp x = ([], x) := by
  cases x with
  | nil => rfl
  | cons c t =>
    have hc : ¬ (c = 'e' ∨ c = 'E') := by
      rintro (hc | hc) <;> subst hc <;> simp [headIs] at h1 h2
    cases t with
    | nil => rw [scanExp_single]
    | cons c2 t2 => rw [scanExp_cons2, if_neg hc]

theorem digit_not_sign (c : Char) (h : c.isDigit = true) :
    ¬ (c = '+' ∨ c = '-') := by
  rintro (hc | hc) <;> subst hc <;> simp [Char.isDigit] at h

theorem scanExp_split (s : List Char) :
    ((scanExp s).1 = [] ∧ (scanExp s).2 = s) ∨
      (∃ e tail, (e = 'e' ∨ e = 'E') ∧ (scanExp s).1 = e :: tail ∧
        s = (scanExp s).1 ++ (scanExp s).2 ∧
        (∀ c ∈ tail, c.isDigit = true ∨ c = '+' ∨ c = '-') ∧ tail ≠ [] ∧
        (∀ sgn rest, tail = sgn :: rest → (sgn = '+' ∨ sgn = '-') →
          rest ≠ [] ∧ (∀ c ∈ rest, c.isDigit = true)) ∧
        (∀ sgn rest, tail = sgn :: rest → ¬ (sgn = '+' ∨ sgn = '-') →
          (∀ c ∈ tail, c.isDigit = true)) ∧
        headNotDigit (scanExp s).2 = true) := by
  cases s with
  | nil => exact Or.inl ⟨rfl, rfl⟩
  | cons e u =>
    cases u with
    | nil =>
      rw [scanExp_single]
      exact Or.inl ⟨rfl, rfl⟩
    | cons sgn w =>
      rw [scanExp_cons2]
      by_cases he : e = 'e' ∨ e = 'E'
      · rw [if_pos he]
        by_cases hs : sgn = '+' ∨ sgn = '-'
        · rw [if_pos hs]
          by_cases hemp : (w.takeWhile Char.isDigit).isEmpty = true
          · rw [if_pos hemp]
            exact Or.inl ⟨rfl, rfl⟩
          · rw [if_neg hemp]
            refine Or.inr ⟨e, sgn :: w.takeWhile Char.isDigit, he, rfl, ?_,
              ?_, by simp, ?_, ?_, ?_⟩
            · simp [List.takeWhile_append_dropWhile]
            · intro c hc
              rcases List.mem_cons.mp hc with hc | hc
              · subst hc
                rcases hs with hs | hs <;> simp [hs]
              · exact Or.inl (List.mem_takeWhile_imp hc)
            · intro sgn' rest' heq hsgn'
              injection heq with h1 h2
              subst h2
              exact ⟨by simpa [List.isEmpty_iff] using hemp,
                fun c hc => List.mem_takeWhile_imp hc⟩
            · intro sgn' rest' heq hno
              injection heq with h1 h2
              subst h1
              exact absurd hs hno
            · exact headNotDigit_dropWhile w
        · rw [if_neg hs]
          by_cases hemp : ((sgn :: w).takeWhile Char.isDigit).isEmpty = true
          · rw [if_pos hemp]
            exact Or.inl ⟨rfl, rfl⟩
          · rw [if_neg hemp]
            refine Or.inr ⟨e, (sgn :: w).takeWhile Char.isDigit, he, rfl, ?_,
              fun c hc => Or.inl (List.mem_takeWhile_imp hc),
              by simpa [List.isEmpty_iff] using hemp, ?_, ?_, ?_⟩
            · simp [List.takeWhile_append_dropWhile]
            · intro sgn' rest' heq hsgn'
              have : sgn' ∈ (sgn :: w).takeWhile Char.isDigit := by
                rw [heq]; simp
              exact absurd hsgn' (digit_not_sign sgn'
                (List.mem_takeWhile_imp this))
            · intro sgn' rest' heq hno
              exact fun c hc => List.mem_takeWhile_imp hc
            · exact headNotDigit_dropWhile (sgn :: w)
      · rw [if_neg he]
        exact Or.inl ⟨rfl, rfl⟩

theorem scanExp_take (e : Char) (tail x : List Char)
    (he : e = 'e' ∨ e = 'E')
    (htail : ∀ c ∈ tail, c.isDigit = true ∨ c = '+' ∨ c = '-')
    (hne : tail ≠ []) (hx : headNotDigit x = true) :
    (∀ sgn rest, tail = sgn :: rest → (sgn = '+' ∨ sgn = '-') →
      rest ≠ [] ∧ (∀ c ∈ rest, c.isDigit = true)) →
    (∀ sgn rest, tail = sgn :: rest → ¬ (sgn = '+' ∨ sgn = '-') →
      (∀ c ∈ tail, c.isDigit = true)) →
    scanExp ((e :: tail) ++ x) = (e :: tail, x) := by
  intro hsig hnosig
  cases tail with
  | nil => exact absurd rfl hne
  | cons sgn rest =>
    rw [List.cons_append, List.cons_append, scanExp_cons2, if_pos he]
    by_cases hs : sgn = '+' ∨ sgn = '-'
    · rw [if_pos hs]
      obtain ⟨hrne, hrds⟩ := hsig sgn rest rfl hs
      have htw := takeWhile_digits_append rest x hrds hx
      rw [htw.1, htw.2]
      rw [if_neg (by simpa [List.isEmpty_iff] using hrne)]
    · rw [if_neg hs]
      have hds := hnosig sgn rest rfl hs
      have htw := takeWhile_digits_append (sgn :: rest) x hds hx
      simp only [List.cons_append] at htw
      rw [htw.1, htw.2]
      rw [if_neg (by simp [List.isEmpty_iff])]

theorem scanNumAfterSign_facts (s tok r : List Char)
    (h : scanNumAfterSign s = some (tok, r)) :
    (∃ c cs, tok = c :: cs ∧ c.isDigit = true) ∧
    (∀ c ∈ tok, c.isDigit = true ∨ c = '.' ∨ c = '+' ∨ c = '-' ∨
      c = 'e' ∨ c = 'E') ∧
    (∀ x, numBoundary x = true →
      scanNumAfterSign (tok ++ x) = some (tok, x)) := by
  rw [scanNumAfterSign] at h
  cases hid : scanIntDigits s with
  | none => rw [hid] at h; exact absurd h (by simp)
  | some p =>
    obtain ⟨ip, r1⟩ := p
    rw [hid] at h
    simp only [] at h
    injection h with h'
    injection h' with htok hr
    obtain ⟨hs1, hipds, hipshape⟩ := scanIntDigits_split s ip r1 hid
    have hfr := scanFrac_split r1
    have hex := scanExp_split (scanFrac r1).2
    -- name the pieces
    set fp := (scanFrac r1).1 with hfp
    set r2 := (scanFrac r1).2 with hr2
    set ep := (scanExp r2).1 with hep
    set r3 := (scanExp r2).2 with hr3
    -- facts about fp
    have hfpfacts :
        (fp = [] ∧ r2 = r1) ∨
        (∃ ds, ds ≠ [] ∧ (∀ c ∈ ds, c.isDigit = true) ∧ fp = '.' :: ds ∧
          r1 = fp ++ r2 ∧ headNotDigit r2 = true) := hfr
    have hexfacts :
        (ep = [] ∧ r3 = r2) ∨
        (∃ e tail, (e = 'e' ∨ e = 'E') ∧ ep = e :: tail ∧
          r2 = ep ++ r3 ∧
          (∀ c ∈ tail, c.isDigit = true ∨ c = '+' ∨ c = '-') ∧ tail ≠ [] ∧
          (∀ sgn rest, tail = sgn :: rest → (sgn = '+' ∨ sgn = '-') →
            rest ≠ [] ∧ (∀ c ∈ rest, c.isDigit = true)) ∧
          (∀ sgn rest, tail = sgn :: rest → ¬ (sgn = '+' ∨ sgn = '-') →
            (∀ c ∈ tail, c.isDigit = true)) ∧
          headNotDigit r3 = true) := hex
    subst htok
    refine ⟨?_, ?_, ?_⟩
    · -- head of ip is a digit
      rcases hipshape with h0 | ⟨c, ds, hip, hcd, _, _⟩
      · exact ⟨'0', fp ++ ep, by rw [h0]; rfl, by decide⟩
      · exact ⟨c, ds ++ fp ++ ep, by rw [hip]; simp, hcd⟩
    · -- character classes
      intro c hc
      rcases List.mem_append.mp hc with hc | hc
      · rcases List.mem_append.mp hc with hc | hc
        · exact Or.inl (hipds c hc)
        · rcases hfpfacts with ⟨hfpe, _⟩ | ⟨ds, _, hds, hfpv, _, _⟩
          · rw [hfpe] at hc; simp at hc
          · rw [hfpv] at hc
            rcases List.mem_cons.mp hc with hc | hc
            · exact Or.inr (Or.inl hc)
            · exact Or.inl (hds c hc)
      · rcases hexfacts with ⟨hepe, _⟩ | ⟨e, tail, he, hepv, _, htail, _, _, _, _⟩
        · rw [hepe] at hc; simp at hc
        · rw [hepv] at hc
          rcases List.mem_cons.mp hc with hc | hc
          · subst hc
            rcases he with he | he <;> subst he <;> simp
          · rcases htail c hc with hd | hd | hd
            · exact Or.inl hd
            · exact Or.inr (Or.inr (Or.inl hd))
            · exact Or.inr (Or.inr (Or.inr (Or.inl hd)))
    · -- rescan with a boundary suffix
      intro x hxb
      obtain ⟨hxd, hxdot, hxe, hxE⟩ := numBoundary_facts x hxb
      -- head-not-digit of what follows ip
      have hnd : headNotDigit (fp ++ (ep ++ x)) = true := by
        rcases hfpfacts with ⟨hfpe, _⟩ | ⟨ds, _, _, hfpv, _, _⟩
        · rw [hfpe]
          simp only [List.nil_append]
          rcases hexfacts with ⟨hepe, _⟩ | ⟨e, tail, he, hepv, _, _, _, _, _, _⟩
          · rw [hepe]; simpa using hxd
          · rw [hepv]
            rcases he with he | he <;> subst he <;> rfl
        · rw [hfpv]; rfl
      rw [scanNumAfterSign]
      rw [List.append_assoc, List.append_assoc]
      rw [scanIntDigits_rescan ip (fp ++ (ep ++ x)) hipds ?hshape]
      case hshape =>
        rcases hipshape with h0 | ⟨c, ds, hip, hcd, hc0, _⟩
        · exact Or.inl h0
        · exact Or.inr ⟨c, ds, hip, hcd, hc0, hnd⟩
      simp only []
      -- scanFrac step
      have hfrstep : scanFrac (fp ++ (ep ++ x)) = (fp, ep ++ x) := by
        rcases hfpfacts with ⟨hfpe, _⟩ | ⟨ds, hne, hds, hfpv, _, _⟩
        · rw [hfpe]
          simp only [List.nil_append]
          apply scanFrac_skip
          rcases hexfacts with ⟨hepe, _⟩ | ⟨e, tail, he, hepv, _, _, _, _, _, _⟩
          · rw [hepe]; simpa using hxdot
          · rw [hepv]
            rcases he with he | he <;> subst he <;> rfl
        · rw [hfpv, List.cons_append]
          have hndx : headNotDigit (ep ++ x) = true := by
            rcases hexfacts with ⟨hepe, _⟩ | ⟨e, tail, he, hepv, _, _, _, _, _, _⟩
            · rw [hepe]; simpa using hxd
            · rw [hepv]
              rcases he with he | he <;> subst he <;> rfl
          exact scanFrac_take ds (ep ++ x) hne hds hndx
      rw [hfrstep]
      simp only []
      -- scanExp step
      have hexstep : scanExp (ep ++ x) = (ep, x) := by
        rcases hexfacts with ⟨hepe, _⟩ | ⟨e, tail, he, hepv, _, htail, hne,
          hsig, hnosig, _⟩
        · rw [hepe]
          simp only [List.nil_append]
          exact scanExp_notE x hxe hxE
        · rw [hepv]
          exact scanExp_take e tail x he htail hne hxd hsig hnosig
      rw [hexstep]

theorem digit_ne_minus (c : Char) (h : c.isDigit = true) : ¬ c = '-' := by
  intro hc; subst hc; simp [Char.isDigit] at h

theorem scanNumber_facts (s tok r : List Char)
    (h : scanNumber s = some (tok, r)) :
    ((∃ c cs, tok = c :: cs ∧ c.isDigit = true) ∨
      (∃ c cs, tok = '-' :: c :: cs ∧ c.isDigit = true)) ∧
    (∀ c ∈ tok, c.isDigit = true ∨ c = '.' ∨ c = '+' ∨ c = '-' ∨
      c = 'e' ∨ c = 'E') ∧
    (∀ x, numBoundary x = true → scanNumber (tok ++ x) = some (tok, x)) := by
  cases s with
  | nil => exact absurd h (by simp [scanNumber])
  | cons c t =>
    rw [scanNumber] at h
    by_cases hm : c = '-'
    · rw [if_pos hm] at h
      cases hs : scanNumAfterSign t with
      | none => rw [hs] at h; exact absurd h (by simp)
      | some p =>
        obtain ⟨tok', r'⟩ := p
        rw [hs] at h
        injection h with h'
        injection h' with htok hr
        obtain ⟨⟨d, cs, htok', hd⟩, hclass, hrescan⟩ :=
          scanNumAfterSign_facts t tok' r' hs
        subst htok
        refine ⟨Or.inr ⟨d, cs, by rw [htok'], hd⟩, ?_, ?_⟩
        · intro x hx
          rcases List.mem_cons.mp hx with hx | hx
          · subst hx; simp
          · exact hclass x hx
        · intro x hxb
          rw [List.cons_append, scanNumber, if_pos rfl,
            hrescan x hxb]
    · rw [if_neg hm] at h
      obtain ⟨⟨d, cs, htok, hd⟩, hclass, hrescan⟩ :=
        scanNumAfterSign_facts (c :: t) tok r h
      refine ⟨Or.inl ⟨d, cs, htok, hd⟩, hclass, ?_⟩
      intro x hxb
      rw [htok, List.cons_append, scanNumber,
        if_neg (digit_ne_minus d hd), ← List.cons_append, ← htok]
      exact hrescan x hxb

-- Parser step equations ------------------------------------------------------

theorem parseVal_step (fuel : Nat) (s : List Char) :
    parseVal (fuel + 1) s =
      (match s.dropWhile isJsonWs with
       | [] => none
       | c :: t =>
         if c = '{' then
           match t.dropWhile isJsonWs with
           | [] => parseMembers fuel t []
           | d :: r =>
             if d = '}' then some (Json.obj [], r) else parseMembers fuel t []
         else if c = '[' then
           match t.dropWhile isJsonWs with
           | [] => parseElems fuel t []
           | d :: r =>
             if d = ']' then some (Json.arr [], r) else parseElems fuel t []
         else if c = '"' then
           match parseStrBody (t.length + 1) t [] with
           | none => none
           | some (cs, r) => some (Json.str (String.mk cs), r)
         else if "null".data.isPrefixOf (c :: t) then
           some (Json.null, (c :: t).drop 4)
         else if "true".data.isPrefixOf (c :: t) then
           some (Json.bool true, (c :: t).drop 4)
         else if "false".data.isPrefixOf (c :: t) then
           some (Json.bool false, (c :: t).drop 5)
         else if "NaN".data.isPrefixOf (c :: t) then
           some (Json.num "NaN", (c :: t).drop 3)
         else if "Infinity".data.isPrefixOf (c :: t) then
           some (Json.num "Infinity", (c :: t).drop 8)
         else if "-Infinity".data.isPrefixOf (c :: t) then
           some (Json.num "-Infinity", (c :: t).drop 9)
         else
           match scanNumber (c :: t) with
           | none => none
           | some (tok, r) => some (Json.num (String.mk tok), r)) := rfl

theorem parseMembers_step (fuel : Nat) (s : List Char)
    (acc : List (String × Json)) :
    parseMembers (fuel + 1) s acc =
      (match s.dropWhile isJsonWs with
       | [] => none
       | c :: t =>
         if c = '"' then
           match parseStrBody (t.length + 1) t [] with
           | none => none
           | some (k, r1) =>
             match r1.dropWhile isJsonWs with
             | [] => none
             | d :: r2 =>
               if d = ':' then
                 match parseVal fuel r2 with
                 | none => none
                 | some (v, r3) =>
                   match r3.dropWhile isJsonWs with
                   | [] => none
                   | d2 :: r4 =>
                     if d2 = ',' then
                       parseMembers fuel r4 (dset acc (String.mk k) v)
                     else if d2 = '}' then
                       some (Json.obj (dset acc (String.mk k) v), r4)
                     else none
               else none
         else none) := rfl

theorem parseElems_step (fuel : Nat) (s : List Char) (acc : List Json) :
    parseElems (fuel + 1) s acc =
      (match parseVal fuel s with
       | none => none
       | some (v, r) =>
         match r.dropWhile isJsonWs with
         | [] => none
         | d :: r2 =>
           if d = ',' then parseElems fuel r2 (acc ++ [v])
           else if d = ']' then some (Json.arr (acc ++ [v]), r2)
           else none) := rfl

-- Supporting lemmas for the round-trip --------------------------------------

theorem stringMk_data (s : String) : String.mk s.data = s := rfl

theorem dropWhile_cons_not_ws (c : Char) (t : List Char)
    (h : isJsonWs c = false) :
    (c :: t).dropWhile isJsonWs = c :: t := by
  simp [List.dropWhile_cons, h]

theorem parseVal_ws (c : Char) (hws : isJsonWs c = true) :
    ∀ (fuel : Nat) (s : List Char),
      parseVal fuel (c :: s) = parseVal fuel s := by
  intro fuel s
  cases fuel with
  | zero => rfl
  | succ fuel =>
    rw [parseVal_step, parseVal_step, List.dropWhile_cons, if_pos hws]

theorem parseElems_ws (c : Char) (hws : isJsonWs c = true)
    (fuel : Nat) (s : List Char) (acc : List Json) :
    parseElems fuel (c :: s) acc = parseElems fuel s acc := by
  cases fuel with
  | zero => rfl
  | succ fuel =>
    rw [parseElems_step, parseElems_step, parseVal_ws c hws]

theorem parseMembers_ws (c : Char) (hws : isJsonWs c = true)
    (fuel : Nat) (s : List Char) (acc : List (String × Json)) :
    parseMembers fuel (c :: s) acc = parseMembers fuel s acc := by
  cases fuel with
  | zero => rfl
  | succ fuel =>
    rw [parseMembers_step, parseMembers_step, List.dropWhile_cons,
      if_pos hws]

theorem dset_append_of_not_hasKey (m : List (String × Json)) (k : String)
    (v : Json) (h : hasKey m k = false) : dset m k v = m ++ [(k, v)] := by
  induction m with
  | nil => rfl
  | cons kv rest ih =>
    obtain ⟨k', v'⟩ := kv
    have hk' : ¬ k' = k := by
      intro he
      simp [hasKey, dlookup, he] at h
    rw [dset, if_neg hk', List.cons_append, ih]
    simp only [hasKey, dlookup, if_neg hk'] at h
    exact h

theorem wfMembers_not_hasKey (acc : List (String × Json)) (k : String)
    (v : Json) (rest : List (String × Json))
    (h : wfMembers (acc ++ (k, v) :: rest) = true) :
    hasKey acc k = false := by
  induction acc with
  | nil => rfl
  | cons kv acc' ih =>
    obtain ⟨k', v'⟩ := kv
    rw [List.cons_append, wfMembers] at h
    simp only [Bool.and_eq_true, Bool.not_eq_true'] at h
    obtain ⟨⟨hnk, _⟩, hrest⟩ := h
    by_cases he : k' = k
    · subst he
      have : hasKey (acc' ++ (k', v) :: rest) k' = true := by
        simp [hasKey]
        rw [dlookup_append]
        cases hl : dlookup acc' k' with
        | some x => simp
        | none => simp [dlookup]
      rw [this] at hnk
      cases hnk
    · simp only [hasKey, dlookup, if_neg he]
      exact ih hrest

theorem wfMembers_values (m : List (String × Json))
    (h : wfMembers m = true) :
    ∀ kv ∈ m, wfV kv.2 = true := by
  induction m with
  | nil => intro kv hkv; simp at hkv
  | cons kv' rest ih =>
    obtain ⟨k', v'⟩ := kv'
    rw [wfMembers] at h
    simp only [Bool.and_eq_true] at h
    intro kv hkv
    rcases List.mem_cons.mp hkv with hkv | hkv
    · subst hkv; exact h.1.2
    · exact ih h.2 kv hkv

theorem wfElems_head (j : Json) (rest : List Json)
    (h : wfElems (j :: rest) = true) :
    wfV j = true ∧ wfElems rest = true := by
  rw [wfElems] at h
  simpa using h

theorem wfMembers_head (k : String) (v : Json)
    (rest : List (String × Json))
    (h : wfMembers ((k, v) :: rest) = true) :
    hasKey rest k = false ∧ wfV v = true ∧ wfMembers rest = true := by
  rw [wfMembers] at h
  simp only [Bool.and_eq_true, Bool.not_eq_true'] at h
  exact ⟨h.1.1, h.1.2, h.2⟩

theorem escChar_length_pos (c : Char) : 1 ≤ (escChar c).length := by
  rw [escChar]
  repeat' split
  all_goals simp [hex4]

theorem escStr_length_ge (cs : List Char) :
    cs.length ≤ (escStr cs).length := by
  induction cs with
  | nil => simp [escStr]
  | cons c cs ih =>
    have h1 := escChar_length_pos c
    simp only [escStr, List.map_cons, List.flatten_cons, List.length_append,
      List.length_cons]
    simp only [escStr] at ih
    omega

theorem isJsonWs_eq (c : Char) :
    isJsonWs c = (c = ' ' || c = '\t' || c = '\n' || c = '\r') := by
  rw [isJsonWs.eq_def]
  split <;> simp_all

theorem ws_not_digit (c : Char) (h : isJsonWs c = true) :
    c.isDigit = false := by
  rw [isJsonWs_eq] at h
  simp only [Bool.or_eq_true, decide_eq_true_eq] at h
  rcases h with ((h | h) | h) | h <;> subst h <;> decide

theorem isPrefixOf_cons_ne (a : Char) (as : List Char) (c : Char)
    (t : List Char) (h : ¬ a = c) :
    List.isPrefixOf (a :: as) (c :: t) = false := by
  simp [List.isPrefixOf, h]

theorem digit_head_facts (c : Char) (h : c.isDigit = true) :
    ¬ c = '{' ∧ ¬ c = '[' ∧ ¬ c = '"' ∧ ¬ c = 'n' ∧ ¬ c = 't' ∧
    ¬ c = 'f' ∧ ¬ c = 'N' ∧ ¬ c = 'I' ∧ ¬ c = '-' ∧
    isJsonWs c = false ∧ ¬ c = ']' ∧ ¬ c = '}' ∧ ¬ c = ',' := by
  refine ⟨?_, ?_, ?_, ?_, ?_, ?_, ?_, ?_, ?_, ?_, ?_, ?_, ?_⟩
  all_goals first
    | (intro he; rw [he] at h; exact absurd h (by decide))
    | (cases hws : isJsonWs c with
       | false => rfl
       | true => rw [ws_not_digit c hws] at h; exact absurd h (by decide))

theorem prefix_false_of_head_ne (a : Char) (as : List Char) (c : Char)
    (t : List Char) (h : ¬ a = c) :
    List.isPrefixOf (a :: as) (c :: t) = false :=
  isPrefixOf_cons_ne a as c t h

theorem null_prefix_false (c : Char) (t : List Char) (h : ¬ c = 'n') :
    "null".data.isPrefixOf (c :: t) = false :=
  isPrefixOf_cons_ne _ _ _ _ (fun he => h he.symm)

theorem true_prefix_false (c : Char) (t : List Char) (h : ¬ c = 't') :
    "true".data.isPrefixOf (c :: t) = false :=
  isPrefixOf_cons_ne _ _ _ _ (fun he => h he.symm)

theorem false_prefix_false (c : Char) (t : List Char) (h : ¬ c = 'f') :
    "false".data.isPrefixOf (c :: t) = false :=
  isPrefixOf_cons_ne _ _ _ _ (fun he => h he.symm)

theorem nan_prefix_false (c : Char) (t : List Char) (h : ¬ c = 'N') :
    "NaN".data.isPrefixOf (c :: t) = false :=
  isPrefixOf_cons_ne _ _ _ _ (fun he => h he.symm)

theorem inf_prefix_false (c : Char) (t : List Char) (h : ¬ c = 'I') :
    "Infinity".data.isPrefixOf (c :: t) = false :=
  isPrefixOf_cons_ne _ _ _ _ (fun he => h he.symm)

theorem neginf_prefix_false (c : Char) (t : List Char) (h : ¬ c = '-') :
    "-Infinity".data.isPrefixOf (c :: t) = false :=
  isPrefixOf_cons_ne _ _ _ _ (fun he => h he.symm)

theorem neginf_prefix_false2 (d : Char) (t : List Char) (h : ¬ d = 'I') :
    "-Infinity".data.isPrefixOf ('-' :: d :: t) = false := by
  have h0 : "-Infinity".data = '-' :: 'I' :: "nfinity".data := rfl
  rw [h0]
  have hd : ('I' == d) = false := beq_eq_false_iff_ne.mpr (fun he => h he.symm)
  simp only [List.isPrefixOf, hd, Bool.and_false, Bool.false_and,
    Bool.and_eq_false_iff]

theorem numTokenOk_cases (t : List Char) (h : numTokenOk t = true) :
    scanNumber t = some (t, []) ∨ t = "NaN".data ∨ t = "Infinity".data ∨
      t = "-Infinity".data := by
  simp only [numTokenOk, Bool.or_eq_true, decide_eq_true_eq] at h
  tauto

-- parseVal dispatch lemmas ---------------------------------------------------

theorem parseVal_null (fuel : Nat) (s r : List Char)
    (hs : s.dropWhile isJsonWs = 'n' :: 'u' :: 'l' :: 'l' :: r) :
    parseVal (fuel + 1) s = some (Json.null, r) := by
  rw [parseVal_step, hs]
  dsimp only
  rw [if_neg (by decide), if_neg (by decide), if_neg (by decide),
    if_pos (by simp [List.isPrefixOf])]
  rfl

theorem parseVal_true (fuel : Nat) (s r : List Char)
    (hs : s.dropWhile isJsonWs = 't' :: 'r' :: 'u' :: 'e' :: r) :
    parseVal (fuel + 1) s = some (Json.bool true, r) := by
  rw [parseVal_step, hs]
  dsimp only
  rw [if_neg (by decide), if_neg (by decide), if_neg (by decide),
    null_prefix_false _ _ (by decide), if_neg (by decide),
    if_pos (by simp [List.isPrefixOf])]
  rfl

theorem parseVal_false (fuel : Nat) (s r : List Char)
    (hs : s.dropWhile isJsonWs = 'f' :: 'a' :: 'l' :: 's' :: 'e' :: r) :
    parseVal (fuel + 1) s = some (Json.bool false, r) := by
  rw [parseVal_step, hs]
  dsimp only
  rw [if_neg (by decide), if_neg (by decide), if_neg (by decide),
    null_prefix_false _ _ (by decide), if_neg (by decide),
    true_prefix_false _ _ (by decide), if_neg (by decide),
    if_pos (by simp [List.isPrefixOf])]
  rfl

theorem parseVal_nan (fuel : Nat) (s r : List Char)
    (hs : s.dropWhile isJsonWs = 'N' :: 'a' :: 'N' :: r) :
    parseVal (fuel + 1) s = some (Json.num "NaN", r) := by
  rw [parseVal_step, hs]
  dsimp only
  rw [if_neg (by decide), if_neg (by decide), if_neg (by decide),
    null_prefix_false _ _ (by decide), if_neg (by decide),
    true_prefix_false _ _ (by decide), if_neg (by decide),
    false_prefix_false _ _ (by decide), if_neg (by decide),
    if_pos (by simp [List.isPrefixOf])]
  rfl

theorem parseVal_inf (fuel : Nat) (s r : List Char)
    (hs : s.dropWhile isJsonWs =
      'I' :: 'n' :: 'f' :: 'i' :: 'n' :: 'i' :: 't' :: 'y' :: r) :
    parseVal (fuel + 1) s = some (Json.num "Infinity", r) := by
  rw [parseVal_step, hs]
  dsimp only
  rw [if_neg (by decide), if_neg (by decide), if_neg (by decide),
    null_prefix_false _ _ (by decide), if_neg (by decide),
    true_prefix_false _ _ (by decide), if_neg (by decide),
    false_prefix_false _ _ (by decide), if_neg (by decide),
    nan_prefix_false _ _ (by decide), if_neg (by decide),
    if_pos (by simp [List.isPrefixOf])]
  rfl

theorem parseVal_neginf (fuel : Nat) (s r : List Char)
    (hs : s.dropWhile isJsonWs =
      '-' :: 'I' :: 'n' :: 'f' :: 'i' :: 'n' :: 'i' :: 't' :: 'y' :: r) :
    parseVal (fuel + 1) s = some (Json.num "-Infinity", r) := by
  rw [parseVal_step, hs]
  dsimp only
  rw [if_neg (by decide), if_neg (by decide), if_neg (by decide),
    null_prefix_false _ _ (by decide), if_neg (by decide),
    true_prefix_false _ _ (by decide), if_neg (by decide),
    false_prefix_false _ _ (by decide), if_neg (by decide),
    nan_prefix_false _ _ (by decide), if_neg (by decide),
    inf_prefix_false _ _ (by decide), if_neg (by decide),
    if_pos (by simp [List.isPrefixOf])]
  rfl

theorem parseVal_str_d (fuel : Nat) (s t : List Char)
    (hs : s.dropWhile isJsonWs = '"' :: t) :
    parseVal (fuel + 1) s =
      (match parseStrBody (t.length + 1) t [] with
       | none => none
       | some (cs, r) => some (Json.str (String.mk cs), r)) := by
  rw [parseVal_step, hs]
  dsimp only
  rw [if_neg (by decide), if_neg (by decide), if_pos rfl]

theorem parseVal_obj_empty (fuel : Nat) (s t r : List Char)
    (hs : s.dropWhile isJsonWs = '{' :: t)
    (ht : t.dropWhile isJsonWs = '}' :: r) :
    parseVal (fuel + 1) s = some (Json.obj [], r) := by
  rw [parseVal_step, hs]
  dsimp only
  rw [if_pos rfl, ht]
  dsimp only
  rw [if_pos rfl]

theorem parseVal_obj_go (fuel : Nat) (s t r : List Char) (d : Char)
    (hs : s.dropWhile isJsonWs = '{' :: t)
    (ht : t.dropWhile isJsonWs = d :: r) (hd : ¬ d = '}') :
    parseVal (fuel + 1) s = parseMembers fuel t [] := by
  rw [parseVal_step, hs]
  dsimp only
  rw [if_pos rfl, ht]
  dsimp only
  rw [if_neg hd]

theorem parseVal_arr_empty (fuel : Nat) (s t r : List Char)
    (hs : s.dropWhile isJsonWs = '[' :: t)
    (ht : t.dropWhile isJsonWs = ']' :: r) :
    parseVal (fuel + 1) s = some (Json.arr [], r) := by
  rw [parseVal_step, hs]
  dsimp only
  rw [if_neg (by decide), if_pos rfl, ht]
  dsimp only
  rw [if_pos rfl]

theorem parseVal_arr_go (fuel : Nat) (s t r : List Char) (d : Char)
    (hs : s.dropWhile isJsonWs = '[' :: t)
    (ht : t.dropWhile isJsonWs = d :: r) (hd : ¬ d = ']') :
    parseVal (fuel + 1) s = parseElems fuel t [] := by
  rw [parseVal_step, hs]
  dsimp only
  rw [if_neg (by decide), if_pos rfl, ht]
  dsimp only
  rw [if_neg hd]

theorem parseVal_num_digit (fuel : Nat) (s t : List Char) (c : Char)
    (hs : s.dropWhile isJsonWs = c :: t) (hd : c.isDigit = true) :
    parseVal (fuel + 1) s =
      (match scanNumber (c :: t) with
       | none => none
       | some (tok, r) => some (Json.num (String.mk tok), r)) := by
  obtain ⟨h1, h2, h3, h4, h5, h6, h7, h8, h9, _⟩ := digit_head_facts c hd
  rw [parseVal_step, hs]
  dsimp only
  rw [if_neg h1, if_neg h2, if_neg h3,
    null_prefix_false _ _ h4, if_neg (by decide),
    true_prefix_false _ _ h5, if_neg (by decide),
    false_prefix_false _ _ h6, if_neg (by decide),
    nan_prefix_false _ _ h7, if_neg (by decide),
    inf_prefix_false _ _ h8, if_neg (by decide),
    neginf_prefix_false _ _ h9, if_neg (by decide)]

theorem parseVal_num_sign (fuel : Nat) (s t : List Char) (d : Char)
    (hs : s.dropWhile isJsonWs = '-' :: d :: t) (hd : d.isDigit = true) :
    parseVal (fuel + 1) s =
      (match scanNumber ('-' :: d :: t) with
       | none => none
       | some (tok, r) => some (Json.num (String.mk tok), r)) := by
  obtain ⟨_, _, _, _, _, _, _, hI, _⟩ := digit_head_facts d hd
  rw [parseVal_step, hs]
  dsimp only
  rw [if_neg (by decide), if_neg (by decide), if_neg (by decide),
    null_prefix_false _ _ (by decide), if_neg (by decide),
    true_prefix_false _ _ (by decide), if_neg (by decide),
    false_prefix_false _ _ (by decide), if_neg (by decide),
    nan_prefix_false _ _ (by decide), if_neg (by decide),
    inf_prefix_false _ _ (by decide), if_neg (by decide),
    neginf_prefix_false2 _ _ hI, if_neg (by decide)]

theorem parseMembers_go (fuel : Nat) (s t : List Char)
    (hs : s.dropWhile isJsonWs = '"' :: t)
    (k r1 : List Char) (hk : parseStrBody (t.length + 1) t [] = some (k, r1))
    (r2 : List Char) (hr1 : r1.dropWhile isJsonWs = ':' :: r2)
    (v : Json) (r3 : List Char) (hv : parseVal fuel r2 = some (v, r3))
    (d2 : Char) (r4 : List Char)
    (hr3 : r3.dropWhile isJsonWs = d2 :: r4)
    (acc : List (String × Json)) :
    parseMembers (fuel + 1) s acc =
      (if d2 = ',' then parseMembers fuel r4 (dset acc (String.mk k) v)
       else if d2 = '}' then
         some (Json.obj (dset acc (String.mk k) v), r4)
       else none) := by
  rw [parseMembers_step, hs]
  dsimp only
  rw [if_pos rfl, hk]
  dsimp only
  rw [hr1]
  dsimp only
  rw [if_pos rfl, hv]
  dsimp only
  rw [hr3]

theorem parseElems_go (fuel : Nat) (s : List Char) (acc : List Json)
    (v : Json) (r : List Char) (hv : parseVal fuel s = some (v, r))
    (d : Char) (r2 : List Char) (hr : r.dropWhile isJsonWs = d :: r2) :
    parseElems (fuel + 1) s acc =
      (if d = ',' then parseElems fuel r2 (acc ++ [v])
       else if d = ']' then some (Json.arr (acc ++ [v]), r2)
       else none) := by
  rw [parseElems_step, hv]
  dsimp only
  rw [hr]

theorem dumpsV_shape (j : Json) (h : wfV j = true) :
    ∃ c cs, dumpsV j = c :: cs ∧ isJsonWs c = false ∧ ¬ c = ']' ∧
      ¬ c = '}' ∧ ¬ c = ',' := by
  cases j with
  | null => exact ⟨'n', _, rfl, by decide, by decide, by decide, by decide⟩
  | bool b =>
    cases b with
    | true => exact ⟨'t', _, rfl, by decide, by decide, by decide, by decide⟩
    | false => exact ⟨'f', _, rfl, by decide, by decide, by decide, by decide⟩
  | str s => exact ⟨'"', _, rfl, by decide, by decide, by decide, by decide⟩
  | arr js => exact ⟨'[', _, rfl, by decide, by decide, by decide, by decide⟩
  | obj kvs => exact ⟨'{', _, rfl, by decide, by decide, by decide, by decide⟩
  | num s =>
    rw [wfV] at h
    rcases numTokenOk_cases s.data h with hsc | hc | hc | hc
    · obtain ⟨hshape, _, _⟩ := scanNumber_facts s.data s.data [] hsc
      rcases hshape with ⟨c, cs, htok, hdC⟩ | ⟨c, cs, htok, hdC⟩
      · obtain ⟨_, _, _, _, _, _, _, _, _, hws, hb1, hb2, hb3⟩ :=
          digit_head_facts c hdC
        exact ⟨c, cs, by rw [dumpsV, htok], hws, hb1, hb2, hb3⟩
      · exact ⟨'-', c :: cs, by rw [dumpsV, htok], by decide, by decide,
          by decide, by decide⟩
    · exact ⟨'N', _, by rw [dumpsV, hc], by decide, by decide,
        by decide, by decide⟩
    · exact ⟨'I', _, by rw [dumpsV, hc], by decide, by decide,
        by decide, by decide⟩
    · exact ⟨'-', _, by rw [dumpsV, hc], by decide, by decide,
        by decide, by decide⟩

theorem parse_dumps : ∀ fuel : Nat,
    (∀ (j : Json) (r : List Char), wfV j = true →
      (dumpsV j).length ≤ fuel → numBoundary r = true →
      parseVal fuel (dumpsV j ++ r) = some (j, r)) ∧
    (∀ (js : List Json) (acc : List Json) (r : List Char),
      wfElems js = true → js ≠ [] →
      (dumpsElems js).length + 1 ≤ fuel → numBoundary r = true →
      parseElems fuel (dumpsElems js ++ (']' :: r)) acc =
        some (Json.arr (acc ++ js), r)) ∧
    (∀ (kvs : List (String × Json)) (acc : List (String × Json))
      (r : List Char),
      wfMembers (acc ++ kvs) = true → kvs ≠ [] →
      (dumpsMembers kvs).length + 1 ≤ fuel → numBoundary r = true →
      parseMembers fuel (dumpsMembers kvs ++ ('}' :: r)) acc =
        some (Json.obj (acc ++ kvs), r)) := by
  intro fuel
  induction fuel with
  | zero =>
    refine ⟨?_, ?_, ?_⟩
    · intro j r hwf hlen _
      obtain ⟨c, cs, hc, -, -, -, -⟩ := dumpsV_shape j hwf
      rw [hc] at hlen
      simp at hlen
    · intro js acc r _ _ hlen _
      omega
    · intro kvs acc r _ _ hlen _
      omega
  | succ fuel ih =>
    obtain ⟨ihV, ihE, ihM⟩ := ih
    refine ⟨?_, ?_, ?_⟩
    · -- parseVal
      intro j r hwf hlen hr
      cases j with
      | null =>
        exact parseVal_null fuel _ r (dropWhile_cons_not_ws _ _ (by decide))
      | bool b =>
        cases b with
        | true =>
          exact parseVal_true fuel _ r (dropWhile_cons_not_ws _ _ (by decide))
        | false =>
          exact parseVal_false fuel _ r
            (dropWhile_cons_not_ws _ _ (by decide))
      | num s =>
        rw [wfV] at hwf
        rcases numTokenOk_cases s.data hwf with hsc | hc | hc | hc
        · obtain ⟨hshape, -, hrescan⟩ :=
            scanNumber_facts s.data s.data [] hsc
          rcases hshape with ⟨c, cs, htok, hdC⟩ | ⟨c, cs, htok, hdC⟩
          · obtain ⟨-, -, -, -, -, -, -, -, -, hws, -, -, -⟩ :=
              digit_head_facts c hdC
            have hs : ((dumpsV (Json.num s) ++ r).dropWhile isJsonWs) =
                c :: (cs ++ r) := by
              rw [dumpsV, htok, List.cons_append]
              exact dropWhile_cons_not_ws _ _ hws
            rw [parseVal_num_digit fuel _ _ c hs hdC]
            have hcc : c :: (cs ++ r) = s.data ++ r := by
              rw [htok, List.cons_append]
            rw [hcc, hrescan r hr]
          · have hs : ((dumpsV (Json.num s) ++ r).dropWhile isJsonWs) =
                '-' :: (c :: (cs ++ r)) := by
              rw [dumpsV, htok, List.cons_append, List.cons_append]
              exact dropWhile_cons_not_ws _ _ (by decide)
            rw [parseVal_num_sign fuel _ _ c hs hdC]
            have hcc : '-' :: (c :: (cs ++ r)) = s.data ++ r := by
              rw [htok, List.cons_append, List.cons_append]
            rw [hcc, hrescan r hr]
        · have hseq : s = "NaN" := by
            have h2 := congrArg String.mk hc
            rwa [stringMk_data, stringMk_data] at h2
          subst hseq
          exact parseVal_nan fuel _ r (dropWhile_cons_not_ws _ _ (by decide))
        · have hseq : s = "Infinity" := by
            have h2 := congrArg String.mk hc
            rwa [stringMk_data, stringMk_data] at h2
          subst hseq
          exact parseVal_inf fuel _ r (dropWhile_cons_not_ws _ _ (by decide))
        · have hseq : s = "-Infinity" := by
            have h2 := congrArg String.mk hc
            rwa [stringMk_data, stringMk_data] at h2
          subst hseq
          exact parseVal_neginf fuel _ r
            (dropWhile_cons_not_ws _ _ (by decide))
      | str s =>
        have hs : ((dumpsV (Json.str s) ++ r).dropWhile isJsonWs) =
            '"' :: (escStr s.data ++ ('"' :: r)) := by
          rw [dumpsV, List.cons_append, List.append_assoc]
          exact dropWhile_cons_not_ws _ _ (by decide)
        rw [parseVal_str_d fuel _ _ hs]
        have hklen : s.data.length ≤ (escStr s.data ++ ('"' :: r)).length := by
          have := escStr_length_ge s.data
          simp only [List.length_append, List.length_cons]
          omega
        rw [parseStrBody_escStr s.data _ r [] hklen]
        rfl
      | arr js =>
        rw [wfV] at hwf
        cases js with
        | nil =>
          exact parseVal_arr_empty fuel _ (']' :: r) r
            (dropWhile_cons_not_ws _ _ (by decide))
            (dropWhile_cons_not_ws _ _ (by decide))
        | cons j0 rest =>
          obtain ⟨hwfj0, hwfrest⟩ := wfElems_head j0 rest hwf
          obtain ⟨c0, cs0, hc0, hws0, hne0, -, -⟩ := dumpsV_shape j0 hwfj0
          have hs : ((dumpsV (Json.arr (j0 :: rest)) ++ r).dropWhile
              isJsonWs) = '[' :: (dumpsElems (j0 :: rest) ++ (']' :: r)) := by
            rw [dumpsV, List.cons_append, List.append_assoc]
            exact dropWhile_cons_not_ws _ _ (by decide)
          have ht : ((dumpsElems (j0 :: rest) ++ (']' :: r)).dropWhile
              isJsonWs) = c0 :: (((cs0 ++
                (if rest.isEmpty then [] else [',', ' '])) ++
                dumpsElems rest) ++ (']' :: r)) := by
            rw [dumpsElems, hc0, List.cons_append, List.cons_append,
              List.cons_append]
            exact dropWhile_cons_not_ws _ _ hws0
          rw [parseVal_arr_go fuel _ _ _ c0 hs ht hne0]
          have hlen2 : (dumpsElems (j0 :: rest)).length + 1 ≤ fuel := by
            rw [dumpsV] at hlen
            simp only [List.length_cons, List.length_append] at hlen ⊢
            simp at hlen
            omega
          rw [ihE (j0 :: rest) [] r hwf (by simp) hlen2 hr]
          rfl
      | obj kvs =>
        rw [wfV] at hwf
        cases kvs with
        | nil =>
          exact parseVal_obj_empty fuel _ ('}' :: r) r
            (dropWhile_cons_not_ws _ _ (by decide))
            (dropWhile_cons_not_ws _ _ (by decide))
        | cons kv rest =>
          obtain ⟨k, v⟩ := kv
          have hs : ((dumpsV (Json.obj ((k, v) :: rest)) ++ r).dropWhile
              isJsonWs) =
              '{' :: (dumpsMembers ((k, v) :: rest) ++ ('}' :: r)) := by
            rw [dumpsV, List.cons_append, List.append_assoc]
            exact dropWhile_cons_not_ws _ _ (by decide)
          have ht : ((dumpsMembers ((k, v) :: rest) ++ ('}' :: r)).dropWhile
              isJsonWs) = '"' :: (((escStr k.data ++ ['"'] ++
                (':' :: ' ' :: dumpsV v) ++
                (if rest.isEmpty then [] else [',', ' '])) ++
                dumpsMembers rest) ++ ('}' :: r)) := by
            rw [dumpsMembers, List.cons_append, List.cons_append,
              List.cons_append, List.cons_append]
            exact dropWhile_cons_not_ws _ _ (by decide)
          rw [parseVal_obj_go fuel _ _ _ '"' hs ht (by decide)]
          have hlen2 : (dumpsMembers ((k, v) :: rest)).length + 1 ≤ fuel := by
            rw [dumpsV] at hlen
            simp only [List.length_cons, List.length_append] at hlen ⊢
            simp at hlen
            omega
          rw [ihM ((k, v) :: rest) [] r hwf (by simp) hlen2 hr]
          rfl
    · -- parseElems
      intro js acc r hwf hne hlen hr
      cases js with
      | nil => exact absurd rfl hne
      | cons j0 rest =>
        obtain ⟨hwfj0, hwfrest⟩ := wfElems_head j0 rest hwf
        cases rest with
        | nil =>
          have heq : dumpsElems [j0] ++ (']' :: r) =
              dumpsV j0 ++ (']' :: r) := by
            simp [dumpsElems]
          have hlenv : (dumpsV j0).length ≤ fuel := by
            simp [dumpsElems] at hlen
            omega
          have hv : parseVal fuel (dumpsElems [j0] ++ (']' :: r)) =
              some (j0, ']' :: r) := by
            rw [heq]
            exact ihV j0 (']' :: r) hwfj0 hlenv (by simp [numBoundary])
          rw [parseElems_go fuel _ acc j0 (']' :: r) hv ']' r
            (dropWhile_cons_not_ws _ _ (by decide)),
            if_neg (by decide), if_pos rfl]
        | cons j1 rest2 =>
          have hsplit : dumpsElems (j0 :: j1 :: rest2) =
              (dumpsV j0 ++ [',', ' ']) ++ dumpsElems (j1 :: rest2) := by
            rw [dumpsElems]
            rfl
          have heq : dumpsElems (j0 :: j1 :: rest2) ++ (']' :: r) =
              dumpsV j0 ++ (',' :: ' ' ::
                (dumpsElems (j1 :: rest2) ++ (']' :: r))) := by
            rw [hsplit, List.append_assoc, List.append_assoc]
            rfl
          rw [hsplit] at hlen
          simp only [List.length_append, List.length_cons,
            List.length_nil] at hlen
          have hlenv : (dumpsV j0).length ≤ fuel := by omega
          have hlenE : (dumpsElems (j1 :: rest2)).length + 1 ≤ fuel := by
            omega
          have hv : parseVal fuel (dumpsElems (j0 :: j1 :: rest2) ++
              (']' :: r)) = some (j0, ',' :: ' ' ::
                (dumpsElems (j1 :: rest2) ++ (']' :: r))) := by
            rw [heq]
            exact ihV j0 _ hwfj0 hlenv (by simp [numBoundary])
          rw [parseElems_go fuel _ acc j0 _ hv ',' _
            (dropWhile_cons_not_ws _ _ (by decide)), if_pos rfl,
            parseElems_ws ' ' (by decide),
            ihE (j1 :: rest2) (acc ++ [j0]) r hwfrest (by simp) hlenE hr,
            List.append_assoc]
          rfl
    · -- parseMembers
      intro kvs acc r hwf hne hlen hr
      cases kvs with
      | nil => exact absurd rfl hne
      | cons kv rest =>
        obtain ⟨k, v⟩ := kv
        have hwfv : wfV v = true :=
          wfMembers_values _ hwf (k, v) (by simp)
        have hnk : hasKey acc k = false :=
          wfMembers_not_hasKey acc k v rest hwf
        cases rest with
        | nil =>
          have heq : dumpsMembers [(k, v)] ++ ('}' :: r) =
              '"' :: (escStr k.data ++ ('"' ::
                (':' :: ' ' :: (dumpsV v ++ ('}' :: r))))) := by
            simp [dumpsMembers]
          have hs : ((dumpsMembers [(k, v)] ++ ('}' :: r)).dropWhile
              isJsonWs) = '"' :: (escStr k.data ++ ('"' ::
                (':' :: ' ' :: (dumpsV v ++ ('}' :: r))))) := by
            rw [heq]
            exact dropWhile_cons_not_ws _ _ (by decide)
          have hk : parseStrBody ((escStr k.data ++ ('"' ::
              (':' :: ' ' :: (dumpsV v ++ ('}' :: r))))).length + 1)
              (escStr k.data ++ ('"' ::
                (':' :: ' ' :: (dumpsV v ++ ('}' :: r))))) [] =
              some ([] ++ k.data,
                ':' :: ' ' :: (dumpsV v ++ ('}' :: r))) := by
            refine parseStrBody_escStr k.data _ _ [] ?_
            have := escStr_length_ge k.data
            simp only [List.length_append, List.length_cons]
            omega
          rw [List.nil_append] at hk
          have hlenv : (dumpsV v).length ≤ fuel := by
            simp [dumpsMembers] at hlen
            omega
          have hv2 : parseVal fuel (' ' :: (dumpsV v ++ ('}' :: r))) =
              some (v, '}' :: r) := by
            rw [parseVal_ws ' ' (by decide)]
            exact ihV v _ hwfv hlenv (by simp [numBoundary])
          rw [parseMembers_go fuel _ _ hs k.data _ hk _
            (dropWhile_cons_not_ws _ _ (by decide)) v _ hv2 '}' r
            (dropWhile_cons_not_ws _ _ (by decide)) acc,
            if_neg (by decide), if_pos rfl, stringMk_data k,
            dset_append_of_not_hasKey acc k v hnk]
        | cons kv1 rest2 =>
          have hsplit : dumpsMembers ((k, v) :: kv1 :: rest2) =
              ((('"' :: (escStr k.data ++ ['"'])) ++
                (':' :: ' ' :: dumpsV v)) ++ [',', ' ']) ++
                dumpsMembers (kv1 :: rest2) := by
            rw [dumpsMembers]
            rfl
          have heq : dumpsMembers ((k, v) :: kv1 :: rest2) ++ ('}' :: r) =
              '"' :: (escStr k.data ++ ('"' ::
                (':' :: ' ' :: (dumpsV v ++ (',' :: ' ' ::
                  (dumpsMembers (kv1 :: rest2) ++ ('}' :: r))))))) := by
            rw [hsplit]
            simp [List.append_assoc]
          have hs : ((dumpsMembers ((k, v) :: kv1 :: rest2) ++
              ('}' :: r)).dropWhile isJsonWs) =
              '"' :: (escStr k.data ++ ('"' ::
                (':' :: ' ' :: (dumpsV v ++ (',' :: ' ' ::
                  (dumpsMembers (kv1 :: rest2) ++ ('}' :: r))))))) := by
            rw [heq]
            exact dropWhile_cons_not_ws _ _ (by decide)
          have hk : parseStrBody ((escStr k.data ++ ('"' ::
              (':' :: ' ' :: (dumpsV v ++ (',' :: ' ' ::
                (dumpsMembers (kv1 :: rest2) ++ ('}' :: r))))))).length + 1)
              (escStr k.data ++ ('"' ::
                (':' :: ' ' :: (dumpsV v ++ (',' :: ' ' ::
                  (dumpsMembers (kv1 :: rest2) ++ ('}' :: r))))))) [] =
              some ([] ++ k.data, ':' :: ' ' :: (dumpsV v ++ (',' :: ' ' ::
                (dumpsMembers (kv1 :: rest2) ++ ('}' :: r))))) := by
            refine parseStrBody_escStr k.data _ _ [] ?_
            have := escStr_length_ge k.data
            simp only [List.length_append, List.length_cons]
            omega
          rw [List.nil_append] at hk
          rw [hsplit] at hlen
          simp only [List.length_append, List.length_cons,
            List.length_nil] at hlen
          have hlenv : (dumpsV v).length ≤ fuel := by omega
          have hlen2 : (dumpsMembers (kv1 :: rest2)).length + 1 ≤ fuel := by
            omega
          have hv2 : parseVal fuel (' ' :: (dumpsV v ++ (',' :: ' ' ::
              (dumpsMembers (kv1 :: rest2) ++ ('}' :: r))))) =
              some (v, ',' :: ' ' ::
                (dumpsMembers (kv1 :: rest2) ++ ('}' :: r))) := by
            rw [parseVal_ws ' ' (by decide)]
            exact ihV v _ hwfv hlenv (by simp [numBoundary])
          have hwf2 : wfMembers ((acc ++ [(k, v)]) ++ kv1 :: rest2) =
              true := by
            rw [List.append_assoc]
            exact hwf
          rw [parseMembers_go fuel _ _ hs k.data _ hk _
            (dropWhile_cons_not_ws _ _ (by decide)) v _ hv2 ',' _
            (dropWhile_cons_not_ws _ _ (by decide)) acc,
            if_pos rfl, stringMk_data k,
            dset_append_of_not_hasKey acc k v hnk,
            parseMembers_ws ' ' (by decide),
            ihM (kv1 :: rest2) (acc ++ [(k, v)]) r hwf2 (by simp) hlen2 hr,
            List.append_assoc]
          rfl

/-- `json.loads` inverts `json.dumps` on well-formed values. -/
theorem jsonParse_dumpsV (j : Json) (h : wfV j = true) :
    jsonParse (dumpsV j) = some j := by
  have h1 := (parse_dumps ((dumpsV j).length + 1)).1 j [] h (by omega) rfl
  rw [List.append_nil] at h1
  rw [jsonParse, h1]
  rfl

theorem hexChar_ne_nl (n : Nat) (h : n < 16) : ¬ hexChar n = '\n' := by
  interval_cases n <;> decide

theorem hex4_no_nl (n : Nat) : '\n' ∉ hex4 n := by
  intro hmem
  rcases List.mem_cons.mp hmem with h | hmem
  · exact hexChar_ne_nl _ (by omega) h.symm
  rcases List.mem_cons.mp hmem with h | hmem
  · exact hexChar_ne_nl _ (by omega) h.symm
  rcases List.mem_cons.mp hmem with h | hmem
  · exact hexChar_ne_nl _ (by omega) h.symm
  rcases List.mem_cons.mp hmem with h | hmem
  · exact hexChar_ne_nl _ (by omega) h.symm
  · exact absurd hmem (by decide)

theorem escChar_no_nl (c : Char) : '\n' ∉ escChar c := by
  intro hmem
  rw [escChar] at hmem
  repeat' split at hmem
  all_goals first
    | exact absurd hmem (by decide)
    | (rcases List.mem_cons.mp hmem with h | hmem2
       · exact absurd h (by decide)
       · rcases List.mem_cons.mp hmem2 with h | h3
         · exact absurd h (by decide)
         · exact hex4_no_nl _ h3)
    | (have hc := List.mem_singleton.mp hmem
       subst hc
       exact absurd (by decide : Char.toNat '\n' < 0x20) (by assumption))
    | (rcases List.mem_append.mp hmem with hmem2 | hmem2 <;>
        (rcases List.mem_cons.mp hmem2 with h | hmem3
         · exact absurd h (by decide)
         · rcases List.mem_cons.mp hmem3 with h | h3
           · exact absurd h (by decide)
           · exact hex4_no_nl _ h3))

theorem escStr_no_nl (cs : List Char) : '\n' ∉ escStr cs := by
  intro h
  rw [escStr] at h
  rcases List.mem_flatten.mp h with ⟨l, hl, hmem⟩
  rcases List.mem_map.mp hl with ⟨c, -, rfl⟩
  exact escChar_no_nl c hmem

theorem wfElems_all (js : List Json) (h : wfElems js = true) :
    ∀ j ∈ js, wfV j = true := by
  induction js with
  | nil => intro j hj; simp at hj
  | cons j0 rest ih =>
    rw [wfElems] at h
    simp only [Bool.and_eq_true] at h
    intro j hj
    rcases List.mem_cons.mp hj with hj | hj
    · subst hj; exact h.1
    · exact ih h.2 j hj

theorem dumps_no_nl_aux : ∀ (n : Nat) (j : Json), sizeOf j = n →
    wfV j = true → '\n' ∉ dumpsV j := by
  intro n
  induction n using Nat.strong_induction_on with
  | _ n ih =>
    intro j hsz hwf
    cases j with
    | null => decide
    | bool b => cases b <;> decide
    | num s =>
      rw [wfV] at hwf
      rcases numTokenOk_cases s.data hwf with hsc | hc | hc | hc
      · obtain ⟨-, hclass, -⟩ := scanNumber_facts s.data s.data [] hsc
        intro hmem
        rcases hclass '\n' hmem with h | h | h | h | h | h <;>
          exact absurd h (by decide)
      all_goals rw [dumpsV, hc]; decide
    | str s =>
      intro hmem
      rw [dumpsV] at hmem
      rcases List.mem_cons.mp hmem with h | hmem2
      · exact absurd h (by decide)
      rcases List.mem_append.mp hmem2 with h | h
      · exact escStr_no_nl s.data h
      · exact absurd h (by decide)
    | arr js =>
      rw [wfV] at hwf
      have hspec : sizeOf (Json.arr js) = 1 + sizeOf js := by simp
      have helems : ∀ (js' : List Json), sizeOf js' ≤ sizeOf js →
          wfElems js' = true → '\n' ∉ dumpsElems js' := by
        intro js'
        induction js' with
        | nil => intro _ _ h; simp [dumpsElems] at h
        | cons j0 rest ihl =>
          intro hsz' hwf' hmem
          obtain ⟨hwf0, hwfr⟩ := wfElems_head j0 rest hwf'
          have hszlist : sizeOf (j0 :: rest) = 1 + sizeOf j0 + sizeOf rest
            := by simp
          rw [dumpsElems] at hmem
          rcases List.mem_append.mp hmem with h2 | h2
          · rcases List.mem_append.mp h2 with h3 | h3
            · exact ih (sizeOf j0) (by omega) j0 rfl hwf0 h3
            · rcases hres : rest.isEmpty with htt | hff
              · rw [hres] at h3; simp at h3
              · rw [hres] at h3; exact absurd h3 (by decide)
          · exact ihl (by omega) hwfr h2
      intro hmem
      rw [dumpsV] at hmem
      rcases List.mem_cons.mp hmem with h | hmem2
      · exact absurd h (by decide)
      rcases List.mem_append.mp hmem2 with h | h
      · exact helems js (le_refl _) hwf h
      · exact absurd h (by decide)
    | obj kvs =>
      rw [wfV] at hwf
      have hspec : sizeOf (Json.obj kvs) = 1 + sizeOf kvs := by simp
      have hmems : ∀ (kvs' : List (String × Json)),
          sizeOf kvs' ≤ sizeOf kvs → wfMembers kvs' = true →
          '\n' ∉ dumpsMembers kvs' := by
        intro kvs'
        induction kvs' with
        | nil => intro _ _ h; simp [dumpsMembers] at h
        | cons kv rest ihl =>
          obtain ⟨k, v⟩ := kv
          intro hsz' hwf' hmem
          obtain ⟨-, hwfv, hwfr⟩ := wfMembers_head k v rest hwf'
          have hszlist : sizeOf ((k, v) :: rest) =
              1 + (1 + sizeOf k + sizeOf v) + sizeOf rest := by
            simp
          rw [dumpsMembers] at hmem
          rcases List.mem_append.mp hmem with h2 | h2
          · rcases List.mem_append.mp h2 with h3 | h3
            · rcases List.mem_append.mp h3 with h4 | h4
              · rcases List.mem_cons.mp h4 with h | h5
                · exact absurd h (by decide)
                rcases List.mem_append.mp h5 with h | h
                · exact escStr_no_nl k.data h
                · exact absurd h (by decide)
              · rcases List.mem_cons.mp h4 with h | h5
                · exact absurd h (by decide)
                rcases List.mem_cons.mp h5 with h | h6
                · exact absurd h (by decide)
                · exact ih (sizeOf v) (by omega) v rfl hwfv h6
            · rcases hres : rest.isEmpty with htt | hff
              · rw [hres] at h3; simp at h3
              · rw [hres] at h3; exact absurd h3 (by decide)
          · exact ihl (by omega) hwfr h2
      intro hmem
      rw [dumpsV] at hmem
      rcases List.mem_cons.mp hmem with h | hmem2
      · exact absurd h (by decide)
      rcases List.mem_append.mp hmem2 with h | h
      · exact hmems kvs (le_refl _) hwf h
      · exact absurd h (by decide)

theorem dumps_no_nl (j : Json) (hwf : wfV j = true) : '\n' ∉ dumpsV j :=
  dumps_no_nl_aux (sizeOf j) j rfl hwf

-- Well-formedness preservation of the dict operations ------------------------

theorem hasKey_dset (m : List (String × Json)) (k : String) (v : Json)
    (k' : String) :
    hasKey (dset m k v) k' = (hasKey m k' || decide (k' = k)) := by
  by_cases h : k' = k
  · subst h
    simp [hasKey, dlookup_dset_self]
  · rw [hasKey, dlookup_dset_ne m k k' v (fun he => h he.symm)]
    simp [hasKey, h]

theorem hasKey_ddel_other (m : List (String × Json)) (k k' : String)
    (h : hasKey (ddel m k) k' = true) : hasKey m k' = true := by
  by_cases he : k = k'
  · subst he
    rw [hasKey, dlookup_ddel_self] at h
    exact absurd h (by simp)
  · rwa [hasKey, dlookup_ddel_ne m k k' he] at h

theorem wfMembers_dset (m : List (String × Json)) (k : String) (v : Json)
    (hm : wfMembers m = true) (hv : wfV v = true) :
    wfMembers (dset m k v) = true := by
  induction m with
  | nil => simp [dset, wfMembers, hasKey, dlookup, hv]
  | cons kv rest ih =>
    obtain ⟨k0, v0⟩ := kv
    obtain ⟨hk0, hv0, hrest⟩ := wfMembers_head k0 v0 rest hm
    rw [dset]
    by_cases h : k0 = k
    · rw [if_pos h]
      subst h
      rw [wfMembers]
      simp [hk0, hv, hrest]
    · rw [if_neg h, wfMembers]
      have : hasKey (dset rest k v) k0 = false := by
        rw [hasKey_dset]
        simp [hk0, h]
      simp [this, hv0, ih hrest]

theorem wfMembers_ddel (m : List (String × Json)) (k : String)
    (hm : wfMembers m = true) : wfMembers (ddel m k) = true := by
  induction m with
  | nil => rfl
  | cons kv rest ih =>
    obtain ⟨k0, v0⟩ := kv
    obtain ⟨hk0, hv0, hrest⟩ := wfMembers_head k0 v0 rest hm
    rw [ddel]
    by_cases h : k0 = k
    · rw [if_pos h]
      exact ih hrest
    · rw [if_neg h, wfMembers]
      have : hasKey (ddel rest k) k0 = false := by
        cases hh : hasKey (ddel rest k) k0 with
        | false => rfl
        | true => rw [hasKey_ddel_other rest k k0 hh] at hk0; cases hk0
      simp [this, hv0, ih hrest]

theorem dlookup_mem (m : List (String × Json)) (k : String) (v : Json)
    (h : dlookup m k = some v) : (k, v) ∈ m := by
  induction m with
  | nil => simp [dlookup] at h
  | cons kv rest ih =>
    obtain ⟨k0, v0⟩ := kv
    rw [dlookup] at h
    by_cases he : k0 = k
    · rw [if_pos he] at h
      injection h with hv
      subst he
      rw [hv]
      exact List.mem_cons_self _ _
    · rw [if_neg he] at h
      exact List.mem_cons_of_mem _ (ih h)

theorem wfMembers_lookup (m : List (String × Json)) (k : String) (v : Json)
    (hm : wfMembers m = true) (h : dlookup m k = some v) : wfV v = true :=
  wfMembers_values m hm (k, v) (dlookup_mem m k v h)

theorem wfElems_append (xs ys : List Json) :
    wfElems (xs ++ ys) = (wfElems xs && wfElems ys) := by
  induction xs with
  | nil => simp [wfElems]
  | cons x rest ih =>
    rw [List.cons_append, wfElems, wfElems, ih, Bool.and_assoc]

-- Everything the parser produces is well formed ------------------------------

theorem parse_wf : ∀ fuel : Nat,
    (∀ (s : List Char) (v : Json) (r : List Char),
      parseVal fuel s = some (v, r) → wfV v = true) ∧
    (∀ (s : List Char) (acc : List (String × Json)) (v : Json)
      (r : List Char), wfMembers acc = true →
      parseMembers fuel s acc = some (v, r) → wfV v = true) ∧
    (∀ (s : List Char) (acc : List Json) (v : Json) (r : List Char),
      wfElems acc = true →
      parseElems fuel s acc = some (v, r) → wfV v = true) := by
  intro fuel
  induction fuel with
  | zero =>
    refine ⟨?_, ?_, ?_⟩
    · intro s v r h
      exact Option.noConfusion h
    · intro s acc v r _ h
      exact Option.noConfusion h
    · intro s acc v r _ h
      exact Option.noConfusion h
  | succ fuel ih =>
    obtain ⟨ihV, ihM, ihE⟩ := ih
    refine ⟨?_, ?_, ?_⟩
    · intro s v r h
      rw [parseVal_step] at h
      cases hdw : List.dropWhile isJsonWs s with
      | nil => rw [hdw] at h; exact Option.noConfusion h
      | cons c t =>
        rw [hdw] at h
        dsimp only at h
        split at h
        · -- '{'
          cases hdw2 : List.dropWhile isJsonWs t with
          | nil => rw [hdw2] at h; dsimp only at h; exact ihM t [] v r rfl h
          | cons d r2 =>
            rw [hdw2] at h
            dsimp only at h
            split at h
            · injection h with h1
              injection h1 with hv hr
              rw [← hv]; rfl
            · exact ihM t [] v r rfl h
        · split at h
          · -- '['
            cases hdw2 : List.dropWhile isJsonWs t with
            | nil =>
              rw [hdw2] at h; dsimp only at h; exact ihE t [] v r rfl h
            | cons d r2 =>
              rw [hdw2] at h
              dsimp only at h
              split at h
              · injection h with h1
                injection h1 with hv hr
                rw [← hv]; rfl
              · exact ihE t [] v r rfl h
          · split at h
            · -- '"'
              cases hsb : parseStrBody (t.length + 1) t [] with
              | none => rw [hsb] at h; exact Option.noConfusion h
              | some p =>
                obtain ⟨cs, r2⟩ := p
                rw [hsb] at h
                dsimp only at h
                injection h with h1
                injection h1 with hv hr
                rw [← hv]; rfl
            · split at h
              · injection h with h1
                injection h1 with hv hr
                rw [← hv]; rfl
              · split at h
                · injection h with h1
                  injection h1 with hv hr
                  rw [← hv]; rfl
                · split at h
                  · injection h with h1
                    injection h1 with hv hr
                    rw [← hv]; rfl
                  · split at h
                    · injection h with h1
                      injection h1 with hv hr
                      rw [← hv]; rfl
                    · split at h
                      · injection h with h1
                        injection h1 with hv hr
                        rw [← hv]; rfl
                      · split at h
                        · injection h with h1
                          injection h1 with hv hr
                          rw [← hv]; rfl
                        · -- number
                          cases hsc : scanNumber (c :: t) with
                          | none =>
                            rw [hsc] at h; exact Option.noConfusion h
                          | some p =>
                            obtain ⟨tok, r2⟩ := p
                            rw [hsc] at h
                            dsimp only at h
                            injection h with h1
                            injection h1 with hv hr
                            rw [← hv]
                            obtain ⟨-, -, hrescan⟩ :=
                              scanNumber_facts (c :: t) tok r2 hsc
                            have h0 := hrescan [] rfl
                            rw [List.append_nil] at h0
                            show numTokenOk tok = true
                            simp [numTokenOk, h0]
    · intro s acc v r hacc h
      rw [parseMembers_step] at h
      cases hdw : List.dropWhile isJsonWs s with
      | nil => rw [hdw] at h; exact Option.noConfusion h
      | cons c t =>
        rw [hdw] at h
        dsimp only at h
        split at h
        · cases hsb : parseStrBody (t.length + 1) t [] with
          | none => rw [hsb] at h; exact Option.noConfusion h
          | some p =>
            obtain ⟨k, r1⟩ := p
            rw [hsb] at h
            dsimp only at h
            cases hdw1 : List.dropWhile isJsonWs r1 with
            | nil => rw [hdw1] at h; exact Option.noConfusion h
            | cons d r2 =>
              rw [hdw1] at h
              dsimp only at h
              split at h
              · cases hpv : parseVal fuel r2 with
                | none => rw [hpv] at h; exact Option.noConfusion h
                | some q =>
                  obtain ⟨v1, r3⟩ := q
                  rw [hpv] at h
                  dsimp only at h
                  have hwv1 : wfV v1 = true := ihV r2 v1 r3 hpv
                  cases hdw3 : List.dropWhile isJsonWs r3 with
                  | nil => rw [hdw3] at h; exact Option.noConfusion h
                  | cons d2 r4 =>
                    rw [hdw3] at h
                    dsimp only at h
                    split at h
                    · exact ihM r4 _ v r
                        (wfMembers_dset acc _ v1 hacc hwv1) h
                    · split at h
                      · injection h with h1
                        injection h1 with hv hr
                        rw [← hv]
                        exact wfMembers_dset acc _ v1 hacc hwv1
                      · exact Option.noConfusion h
              · exact Option.noConfusion h
        · exact Option.noConfusion h
    · intro s acc v r hacc h
      rw [parseElems_step] at h
      cases hpv : parseVal fuel s with
      | none => rw [hpv] at h; exact Option.noConfusion h
      | some q =>
        obtain ⟨v1, r1⟩ := q
        rw [hpv] at h
        dsimp only at h
        have hwv1 : wfV v1 = true := ihV s v1 r1 hpv
        have hacc' : wfElems (acc ++ [v1]) = true := by
          rw [wfElems_append]
          simp [hacc, hwv1, wfElems]
        cases hdw : List.dropWhile isJsonWs r1 with
        | nil => rw [hdw] at h; exact Option.noConfusion h
        | cons d r2 =>
          rw [hdw] at h
          dsimp only at h
          split at h
          · exact ihE r2 _ v r hacc' h
          · split at h
            · injection h with h1
              injection h1 with hv hr
              rw [← hv]
              exact hacc'
            · exact Option.noConfusion h

/-- Everything `json.loads` accepts decodes to a well-formed value. -/
theorem jsonParse_wf (s : List Char) (j : Json)
    (h : jsonParse s = some j) : wfV j = true := by
  rw [jsonParse] at h
  cases hpv : parseVal (s.length + 1) s with
  | none => rw [hpv] at h; exact Option.noConfusion h
  | some q =>
    obtain ⟨v, r⟩ := q
    rw [hpv] at h
    dsimp only at h
    split at h
    · injection h with hv
      rw [← hv]
      exact (parse_wf (s.length + 1)).1 s v r hpv
    · exact Option.noConfusion h

-- Frame splitting ------------------------------------------------------------

theorem splitNNAux_cons (c : Char) (rest cur : List Char) :
    splitNNAux (c :: rest) cur =
      (if c = '\n' then
        match rest with
        | c2 :: rest2 =>
          if c2 = '\n' then cur.reverse :: splitNNAux rest2 []
          else splitNNAux (c2 :: rest2) (c :: cur)
        | [] => [(c :: cur).reverse]
      else splitNNAux rest (c :: cur)) := by
  rw [splitNNAux.eq_def]

theorem splitNNAux_delim (x : List Char) (hx : '\n' ∉ x) :
    ∀ (rest cur : List Char),
      splitNNAux (x ++ '\n' :: '\n' :: rest) cur =
        (cur.reverse ++ x) :: splitNNAux rest [] := by
  induction x with
  | nil =>
    intro rest cur
    rw [List.nil_append, splitNNAux_cons, if_pos rfl]
    dsimp only
    rw [if_pos rfl, List.append_nil]
  | cons c x ih =>
    intro rest cur
    have hc : ¬ c = '\n' := fun he => hx (he ▸ List.mem_cons_self c x)
    have hx' : '\n' ∉ x := fun hm => hx (List.mem_cons_of_mem c hm)
    rw [List.cons_append, splitNNAux_cons, if_neg hc, ih hx' rest (c :: cur)]
    simp [List.append_assoc]

theorem splitNN_frames : ∀ (fs : List (List Char)),
    (∀ f ∈ fs, '\n' ∉ f) →
    splitNN ((fs.map (fun f => f ++ nn)).flatten) = fs ++ [[]] := by
  intro fs
  induction fs with
  | nil => intro _; rfl
  | cons f fs ih =>
    intro hall
    have hf : '\n' ∉ f := hall f (List.mem_cons_self f fs)
    have hrec := ih (fun g hg => hall g (List.mem_cons_of_mem f hg))
    rw [List.map_cons, List.flatten_cons, splitNN]
    have heq : (f ++ nn) ++ (List.map (fun g => g ++ nn) fs).flatten =
        f ++ '\n' :: '\n' :: (List.map (fun g => g ++ nn) fs).flatten := by
      rw [List.append_assoc]
      rfl
    rw [heq, splitNNAux_delim f hf _ []]
    rw [show ([] : List Char).reverse ++ f = f by simp]
    rw [← splitNN, hrec]
    rfl

theorem hasKey_ddel_self (m : List (String × Json)) (k : String) :
    hasKey (ddel m k) k = false := by
  simp [hasKey, dlookup_ddel_self]

theorem wfV_pyGet (m : List (String × Json)) (k : String)
    (h : wfMembers m = true) : wfV (pyGet m k) = true := by
  rw [pyGet]
  cases hl : dlookup m k with
  | none => rfl
  | some w =>
    rw [Option.getD_some]
    exact wfMembers_lookup m k w h hl

theorem pyStrip_cons_space (p : List Char) :
    pyStrip (' ' :: p) = pyStrip p := by
  rw [pyStrip, pyStrip, List.dropWhile_cons]
  simp [show isPyWs ' ' = true from rfl]

theorem processEvent_done :
    processEvent ("data: [DONE]".data) = some ("data: [DONE]".data ++ nn) :=
  rfl

theorem patchStreamObj_shape (kvs ckvs dkvs : List (String × Json))
    (restCs : List Json)
    (hch : dlookup kvs "choices" = some (Json.arr (Json.obj ckvs :: restCs)))
    (hdl : dlookup ckvs "delta" = some (Json.obj dkvs))
    (hrc : hasKey dkvs "reasoning_content" = true) :
    patchStreamObj (Json.obj kvs) =
      some (Json.obj (dset kvs "choices" (Json.arr (Json.obj
        (dset ckvs "delta" (Json.obj
          (if hasKey dkvs "content" = false ∨
              isNoneOrEmpty (pyGet dkvs "content") = true then
            dset (ddel dkvs "reasoning_content") "content"
              (pyGet dkvs "reasoning_content")
          else ddel dkvs "reasoning_content"))) :: restCs)))) := by
  by_cases hcond : hasKey dkvs "content" = false ∨
      isNoneOrEmpty (pyGet dkvs "content") = true
  · rw [if_pos hcond]
    simp [patchStreamObj, pyGetAttrD, pyIndex0, pyContainsKey, hch, hdl,
      hrc, hcond]
  · rw [if_neg hcond]
    simp [patchStreamObj, pyGetAttrD, pyIndex0, pyContainsKey, hch, hdl,
      hrc, hcond]

theorem patchStreamObj_good (j : Json) (hwf : wfV j = true)
    (hrd : hasReasoningDelta j = true) :
    ∃ j', patchStreamObj j = some j' ∧ wfV j' = true ∧
      ∃ d, deltaObjOf j' = some d ∧
        hasKey d "reasoning_content" = false := by
  rw [hasReasoningDelta] at hrd
  cases hdo : deltaObjOf j with
  | none => rw [hdo] at hrd; cases hrd
  | some dkvs =>
    rw [hdo] at hrd
    dsimp only at hrd
    cases j with
    | obj kvs =>
      rw [deltaObjOf] at hdo
      cases hch : dlookup kvs "choices" with
      | none => rw [hch] at hdo; exact Option.noConfusion hdo
      | some cv =>
        rw [hch] at hdo
        cases cv with
        | arr cl =>
          cases cl with
          | nil => exact Option.noConfusion hdo
          | cons c0 restCs =>
            cases c0 with
            | obj ckvs =>
              dsimp only at hdo
              cases hdl : dlookup ckvs "delta" with
              | none => rw [hdl] at hdo; exact Option.noConfusion hdo
              | some dv =>
                rw [hdl] at hdo
                cases dv with
                | obj dkvs0 =>
                  injection hdo with hdk
                  subst hdk
                  rw [wfV] at hwf
                  have hwfch := wfMembers_lookup kvs "choices" _ hwf hch
                  rw [wfV] at hwfch
                  obtain ⟨hwfc0, hwfrest⟩ :=
                    wfElems_head (Json.obj ckvs) restCs hwfch
                  rw [wfV] at hwfc0
                  have hwfd := wfMembers_lookup ckvs "delta" _ hwfc0 hdl
                  rw [wfV] at hwfd
                  have hwfd2 : wfMembers
                      (if hasKey dkvs0 "content" = false ∨
                          isNoneOrEmpty (pyGet dkvs0 "content") = true then
                        dset (ddel dkvs0 "reasoning_content") "content"
                          (pyGet dkvs0 "reasoning_content")
                      else ddel dkvs0 "reasoning_content") = true := by
                    split
                    · exact wfMembers_dset _ _ _
                        (wfMembers_ddel dkvs0 _ hwfd)
                        (wfV_pyGet dkvs0 _ hwfd)
                    · exact wfMembers_ddel dkvs0 _ hwfd
                  have hnorc : hasKey
                      (if hasKey dkvs0 "content" = false ∨
                          isNoneOrEmpty (pyGet dkvs0 "content") = true then
                        dset (ddel dkvs0 "reasoning_content") "content"
                          (pyGet dkvs0 "reasoning_content")
                      else ddel dkvs0 "reasoning_content")
                      "reasoning_content" = false := by
                    split
                    · rw [hasKey_dset, hasKey_ddel_self]
                      decide
                    · exact hasKey_ddel_self dkvs0 _
                  refine ⟨_, patchStreamObj_shape kvs ckvs dkvs0 restCs hch
                    hdl hrd, ?_, ?_⟩
                  · rw [wfV]
                    refine wfMembers_dset _ _ _ hwf ?_
                    rw [wfV, wfElems]
                    refine (Bool.and_eq_true _ _).mpr ⟨?_, hwfrest⟩
                    rw [wfV]
                    exact wfMembers_dset _ _ _ hwfc0 hwfd2
                  · refine ⟨_, ?_, hnorc⟩
                    rw [deltaObjOf, dlookup_dset_self]
                    dsimp only
                    rw [dlookup_dset_self]
                | null => exact Option.noConfusion hdo
                | bool b => exact Option.noConfusion hdo
                | num sx => exact Option.noConfusion hdo
                | str sx => exact Option.noConfusion hdo
                | arr ax => exact Option.noConfusion hdo
            | null => exact Option.noConfusion hdo
            | bool b => exact Option.noConfusion hdo
            | num sx => exact Option.noConfusion hdo
            | str sx => exact Option.noConfusion hdo
            | arr ax => exact Option.noConfusion hdo
        | null => exact Option.noConfusion hdo
        | bool b => exact Option.noConfusion hdo
        | num sx => exact Option.noConfusion hdo
        | str sx => exact Option.noConfusion hdo
        | obj ox => exact Option.noConfusion hdo
    | null => exact Option.noConfusion hdo
    | bool b => exact Option.noConfusion hdo
    | num sx => exact Option.noConfusion hdo
    | str sx => exact Option.noConfusion hdo
    | arr ax => exact Option.noConfusion hdo

theorem processEvent_data (p : List Char) (obj obj' : Json)
    (hstrip : pyStrip p = p)
    (hparse : jsonParse p = some obj)
    (hpatch : patchStreamObj obj = some obj') :
    processEvent ("data: ".data ++ p) =
      some ("data: ".data ++ dumpsV obj' ++ nn) := by
  rw [processEvent]
  have hpre : ("data:".data.isPrefixOf ("data: ".data ++ p)) = true := rfl
  rw [if_neg (by rw [hpre]; simp)]
  have hdrop : ("data: ".data ++ p).drop 5 = ' ' :: p := rfl
  rw [hdrop, pyStrip_cons_space, hstrip]
  have hpd : ¬ p = "[DONE]".data := by
    intro he
    rw [he] at hparse
    rw [show jsonParse "[DONE]".data = none from rfl] at hparse
    exact Option.noConfusion hparse
  rw [if_neg hpd, hparse]
  dsimp only
  rw [hpatch]

theorem streamPatchChunkGo_outs (chunk : List Char) :
    ∀ (es outs : List (List Char)),
      es.map processEvent = outs.map some →
      streamPatchChunkGo chunk es = outs.flatten := by
  intro es
  induction es with
  | nil =>
    intro outs h
    cases outs with
    | nil => rfl
    | cons o outs2 => simp at h
  | cons e es ih =>
    intro outs h
    cases outs with
    | nil => simp at h
    | cons o outs2 =>
      simp only [List.map_cons, List.cons.injEq] at h
      rw [streamPatchChunkGo, h.1]
      rw [ih outs2 h.2, List.flatten_cons]

theorem c3_frames : ∀ ps : List (List Char),
    (∀ p ∈ ps, '\n' ∉ p ∧ pyStrip p = p ∧
      ∃ obj, jsonParse p = some obj ∧ hasReasoningDelta obj = true) →
    ∃ qs : List (List Char),
      qs.length = ps.length ∧
      (∀ q ∈ qs, '\n' ∉ q ∧
        ∃ j, jsonParse q = some j ∧
          ∃ d, deltaObjOf j = some d ∧
            hasKey d "reasoning_content" = false) ∧
      (ps.map (fun p => "data: ".data ++ p)).map processEvent =
        qs.map (fun q => some ("data: ".data ++ q ++ nn)) := by
  intro ps
  induction ps with
  | nil =>
    intro _
    exact ⟨[], rfl, by simp, rfl⟩
  | cons p rest ih =>
    intro hall
    obtain ⟨hnl, hstrip, obj, hparse, hrd⟩ :=
      hall p (List.mem_cons_self p rest)
    have hwf := jsonParse_wf p obj hparse
    obtain ⟨obj2, hpatch, hwf2, d, hdod, hnorc⟩ :=
      patchStreamObj_good obj hwf hrd
    obtain ⟨qs0, hlen0, hprops0, hmap0⟩ :=
      ih (fun p2 hp2 => hall p2 (List.mem_cons_of_mem p hp2))
    refine ⟨dumpsV obj2 :: qs0, by simp [hlen0], ?_, ?_⟩
    · intro q hq
      rcases List.mem_cons.mp hq with hq | hq
      · subst hq
        exact ⟨dumps_no_nl obj2 hwf2,
          obj2, jsonParse_dumpsV obj2 hwf2, d, hdod, hnorc⟩
      · exact hprops0 q hq
    · simp only [List.map_cons, hmap0, List.cons.injEq]
      refine ⟨?_, trivial⟩
      rw [processEvent_data p obj obj2 hstrip hparse hpatch]

theorem sseFrames_of_frames (fs : List (List Char))
    (hnl : ∀ f ∈ fs, '\n' ∉ f)
    (hne : ∀ f ∈ fs, f.isEmpty = false) :
    sseFrames ((fs.map (fun f => f ++ nn)).flatten) = fs := by
  rw [sseFrames, splitNN_frames fs hnl, List.filter_append]
  have h1 : ∀ f ∈ fs, (!f.isEmpty) = true := by
    intro f hf
    rw [hne f hf]
    rfl
  rw [List.filter_eq_self.mpr h1]
  simp

theorem sseFrames_of_frames_extra (fs : List (List Char))
    (hnl : ∀ f ∈ fs, '\n' ∉ f)
    (hne : ∀ f ∈ fs, f.isEmpty = false) :
    sseFrames (((fs ++ [[]]).map (fun f => f ++ nn)).flatten) = fs := by
  have hnl2 : ∀ f ∈ fs ++ [[]], '\n' ∉ f := by
    intro f hf
    rcases List.mem_append.mp hf with hf | hf
    · exact hnl f hf
    · simp at hf
      subst hf
      simp
  rw [sseFrames, splitNN_frames (fs ++ [[]]) hnl2, List.filter_append,
    List.filter_append]
  have h1 : ∀ f ∈ fs, (!f.isEmpty) = true := by
    intro f hf
    rw [hne f hf]
    rfl
  rw [List.filter_eq_self.mpr h1]
  simp

/-- C3: SSE round-trip.  For a backend stream whose frames are single
`data: {...}` JSON objects carrying `choices[0].delta.reasoning_content`,
terminated by `data: [DONE]`, the patched output stream has exactly as
many frames as the input, every data frame's payload parses as JSON whose
first choice's delta lacks `reasoning_content`, and the terminal
`data: [DONE]` frame is forwarded byte-identical (it is the last frame of
both streams). -/
theorem C3_sse_round_trip (ps : List (List Char)) (s : List Char)
    (hs : s = ((ps.map (fun p => "data: ".data ++ p) ++
      ["data: [DONE]".data]).map (fun f => f ++ nn)).flatten)
    (hall : ∀ p ∈ ps, '\n' ∉ p ∧ pyStrip p = p ∧
      ∃ obj, jsonParse p = some obj ∧ hasReasoningDelta obj = true) :
    sseFrames s =
      ps.map (fun p => "data: ".data ++ p) ++ ["data: [DONE]".data] ∧
    ∃ qs : List (List Char),
      qs.length = ps.length ∧
      sseFrames ((stream_patch [s]).flatten) =
        qs.map (fun q => "data: ".data ++ q) ++ ["data: [DONE]".data] ∧
      (sseFrames ((stream_patch [s]).flatten)).length =
        (sseFrames s).length ∧
      (sseFrames ((stream_patch [s]).flatten)).getLast? =
        (sseFrames s).getLast? ∧
      ∀ q ∈ qs, ∃ j, jsonParse q = some j ∧
        ∃ d, deltaObjOf j = some d ∧
          hasKey d "reasoning_content" = false := by
  subst hs
  have hnlF : ∀ f ∈ ps.map (fun p => "data: ".data ++ p) ++
      ["data: [DONE]".data], '\n' ∉ f := by
    intro f hf
    rcases List.mem_append.mp hf with hf | hf
    · rcases List.mem_map.mp hf with ⟨p, hp, rfl⟩
      intro hm
      rcases List.mem_append.mp hm with hm | hm
      · revert hm
        decide
      · exact (hall p hp).1 hm
    · simp at hf
      subst hf
      decide
  have hneF : ∀ f ∈ ps.map (fun p => "data: ".data ++ p) ++
      ["data: [DONE]".data], f.isEmpty = false := by
    intro f hf
    rcases List.mem_append.mp hf with hf | hf
    · rcases List.mem_map.mp hf with ⟨p, hp, rfl⟩
      rfl
    · simp at hf
      subst hf
      rfl
  have hin := sseFrames_of_frames _ hnlF hneF
  refine ⟨hin, ?_⟩
  obtain ⟨qs, hlen, hprops, hmap⟩ := c3_frames ps hall
  have hsplit := splitNN_frames _ hnlF
  have houts : (splitNN (((ps.map (fun p => "data: ".data ++ p) ++
      ["data: [DONE]".data]).map (fun f => f ++ nn)).flatten)).map
        processEvent =
      (((qs.map (fun q => "data: ".data ++ q) ++
        ["data: [DONE]".data, []]).map (fun f => f ++ nn)).map some) := by
    rw [hsplit, List.map_append, List.map_append, hmap,
      List.map_append, List.map_append]
    simp only [List.map_map, List.map_cons, List.map_nil]
    rw [processEvent_done]
    simp only [List.append_assoc, List.singleton_append, Function.comp_def]
    try rfl
  have hgo := streamPatchChunkGo_outs
    (((ps.map (fun p => "data: ".data ++ p) ++
      ["data: [DONE]".data]).map (fun f => f ++ nn)).flatten) _ _ houts
  have hout_eq : (stream_patch [((ps.map (fun p => "data: ".data ++ p) ++
      ["data: [DONE]".data]).map (fun f => f ++ nn)).flatten]).flatten =
      streamPatchChunk (((ps.map (fun p => "data: ".data ++ p) ++
        ["data: [DONE]".data]).map (fun f => f ++ nn)).flatten) := by
    simp [stream_patch]
  have hnlQ : ∀ f ∈ qs.map (fun q => "data: ".data ++ q) ++
      ["data: [DONE]".data], '\n' ∉ f := by
    intro f hf
    rcases List.mem_append.mp hf with hf | hf
    · rcases List.mem_map.mp hf with ⟨q, hq, rfl⟩
      intro hm
      rcases List.mem_append.mp hm with hm | hm
      · revert hm
        decide
      · exact (hprops q hq).1 hm
    · simp at hf
      subst hf
      decide
  have hneQ : ∀ f ∈ qs.map (fun q => "data: ".data ++ q) ++
      ["data: [DONE]".data], f.isEmpty = false := by
    intro f hf
    rcases List.mem_append.mp hf with hf | hf
    · rcases List.mem_map.mp hf with ⟨q, hq, rfl⟩
      rfl
    · simp at hf
      subst hf
      rfl
  have hout : sseFrames ((stream_patch
      [((ps.map (fun p => "data: ".data ++ p) ++
        ["data: [DONE]".data]).map (fun f => f ++ nn)).flatten]).flatten) =
      qs.map (fun q => "data: ".data ++ q) ++ ["data: [DONE]".data] := by
    rw [hout_eq, streamPatchChunk, hgo]
    rw [show qs.map (fun q => "data: ".data ++ q) ++
        ["data: [DONE]".data, ([] : List Char)] =
        (qs.map (fun q => "data: ".data ++ q) ++ ["data: [DONE]".data]) ++
          [[]] from by rw [List.append_assoc]; rfl]
    exact sseFrames_of_frames_extra _ hnlQ hneQ
  refine ⟨qs, hlen, hout, ?_, ?_, fun q hq => (hprops q hq).2⟩
  · rw [hout, hin]
    simp [hlen]
  · rw [hout, hin, List.getLast?_concat, List.getLast?_concat]

theorem C3_sse_round_trip_witness :
    (∀ p ∈ [("\x7b\"choices\": [\x7b\"delta\": \x7b\"reasoning_content\": \"hi\"\x7d\x7d]\x7d").data],
      '\n' ∉ p ∧ pyStrip p = p ∧
      ∃ obj, jsonParse p = some obj ∧ hasReasoningDelta obj = true) ∧
    (sseFrames ((([("\x7b\"choices\": [\x7b\"delta\": \x7b\"reasoning_content\": \"hi\"\x7d\x7d]\x7d").data].map
          (fun p => "data: ".data ++ p) ++
        ["data: [DONE]".data]).map (fun f => f ++ nn)).flatten) =
      [("\x7b\"choices\": [\x7b\"delta\": \x7b\"reasoning_content\": \"hi\"\x7d\x7d]\x7d").data].map
          (fun p => "data: ".data ++ p) ++ ["data: [DONE]".data] ∧
    ∃ qs : List (List Char),
      qs.length =
        [("\x7b\"choices\": [\x7b\"delta\": \x7b\"reasoning_content\": \"hi\"\x7d\x7d]\x7d").data].length ∧
      sseFrames ((stream_patch
        [(([("\x7b\"choices\": [\x7b\"delta\": \x7b\"reasoning_content\": \"hi\"\x7d\x7d]\x7d").data].map
            (fun p => "data: ".data ++ p) ++
          ["data: [DONE]".data]).map (fun f => f ++ nn)).flatten]).flatten) =
        qs.map (fun q => "data: ".data ++ q) ++ ["data: [DONE]".data] ∧
      (sseFrames ((stream_patch
        [(([("\x7b\"choices\": [\x7b\"delta\": \x7b\"reasoning_content\": \"hi\"\x7d\x7d]\x7d").data].map
            (fun p => "data: ".data ++ p) ++
          ["data: [DONE]".data]).map (fun f => f ++ nn)).flatten]).flatten)).length =
        (sseFrames ((([("\x7b\"choices\": [\x7b\"delta\": \x7b\"reasoning_content\": \"hi\"\x7d\x7d]\x7d").data].map
            (fun p => "data: ".data ++ p) ++
          ["data: [DONE]".data]).map (fun f => f ++ nn)).flatten)).length ∧
      (sseFrames ((stream_patch
        [(([("\x7b\"choices\": [\x7b\"delta\": \x7b\"reasoning_content\": \"hi\"\x7d\x7d]\x7d").data].map
            (fun p => "data: ".data ++ p) ++
          ["data: [DONE]".data]).map (fun f => f ++ nn)).flatten]).flatten)).getLast? =
        (sseFrames ((([("\x7b\"choices\": [\x7b\"delta\": \x7b\"reasoning_content\": \"hi\"\x7d\x7d]\x7d").data].map
            (fun p => "data: ".data ++ p) ++
          ["data: [DONE]".data]).map (fun f => f ++ nn)).flatten)).getLast? ∧
      ∀ q ∈ qs, ∃ j, jsonParse q = some j ∧
        ∃ d, deltaObjOf j = some d ∧
          hasKey d "reasoning_content" = false) := by
  have hall : ∀ p ∈
      [("\x7b\"choices\": [\x7b\"delta\": \x7b\"reasoning_content\": \"hi\"\x7d\x7d]\x7d").data],
      '\n' ∉ p ∧ pyStrip p = p ∧
      ∃ obj, jsonParse p = some obj ∧ hasReasoningDelta obj = true := by
    intro p hp
    simp only [List.mem_singleton] at hp
    subst hp
    exact ⟨by decide, rfl,
      Json.obj [("choices", Json.arr [Json.obj [("delta",
        Json.obj [("reasoning_content", Json.str "hi")])]])], rfl, rfl⟩
  exact ⟨hall, C3_sse_round_trip
    [("\x7b\"choices\": [\x7b\"delta\": \x7b\"reasoning_content\": \"hi\"\x7d\x7d]\x7d").data]
    _ rfl hall⟩
